import Mathlib

/-!
Verification of the dbNetwork adapter (src/src/dbSta/src/dbNetwork.cc).

The development shallowly embeds the data model of the adapter: the
physical database objects (dbITerm, dbBTerm, dbModITerm, dbModBTerm,
dbInst, dbModInst, dbModule, dbNet, dbModNet) become records collected in
a Design structure, and the adapter's query and mutation functions become
Lean functions over that structure. Each definition is translated from
the C++ source; object handles become tagged references (NetRef, PinRef,
InstRef, TermRef) mirroring the dbObject type-tag dispatch of the source.
-/

namespace DbNwk

/-- Signal types of database terminals (dbSigType). Only the constructors the
adapter inspects are carried: SIGNAL, POWER, GROUND, CLOCK. -/
inductive DbSigType
  | signal
  | power
  | ground
  | clock
deriving DecidableEq

/-- Matches dbSigType::isSupply(): POWER or GROUND. -/
def DbSigType.isSupply : DbSigType → Bool
  | .power => true
  | .ground => true
  | _ => false

/-- The terminal IO types of the database (dbIoType). -/
inductive DbIoType
  | input
  | output
  | inout
  | feedthru
deriving DecidableEq

/-- Logical port directions (sta::PortDirection) as used by the adapter. -/
inductive PortDir
  | input
  | output
  | bidirect
  | power
  | ground
  | unknown
deriving DecidableEq

/-- Matches PortDirection::isPowerGround(). -/
def PortDir.isPowerGround : PortDir → Bool
  | .power => true
  | .ground => true
  | _ => false

/-- Translation of dbNetwork::dbToSta(dbSigType, dbIoType): POWER and GROUND
signal types dominate; otherwise the IO type selects the direction, with
FEEDTHRU mapped to bidirect. -/
def dbToStaDir (sig : DbSigType) (io : DbIoType) : PortDir :=
  match sig with
  | .power => .power
  | .ground => .ground
  | _ =>
    match io with
    | .input => .input
    | .output => .output
    | .inout => .bidirect
    | .feedthru => .bidirect

/-- Translation of dbNetwork::staToDb(PortDirection, dbSigType, dbIoType).
The unknown direction hits logger_->critical in the source, modelled as
none. -/
def staToDbDir : PortDir → Option (DbSigType × DbIoType)
  | .input => some (.signal, .input)
  | .output => some (.signal, .output)
  | .bidirect => some (.signal, .inout)
  | .power => some (.power, .inout)
  | .ground => some (.ground, .inout)
  | .unknown => none

/-- A flat instance terminal (dbITerm). -/
structure ITermRec where
  id : Nat
  inst : Nat
  mterm : String
  sigTy : DbSigType
  dnet : Option Nat
  mnet : Option Nat
deriving DecidableEq

/-- A design boundary terminal (dbBTerm). -/
structure BTermRec where
  id : Nat
  bname : String
  sigTy : DbSigType
  ioTy : DbIoType
  dnet : Option Nat
  mnet : Option Nat
deriving DecidableEq

/-- A module instance terminal facing the parent scope (dbModITerm). -/
structure ModITermRec where
  id : Nat
  mname : String
  parentModInst : Nat
  mnet : Option Nat
deriving DecidableEq

/-- A module boundary terminal facing the child scope (dbModBTerm). -/
structure ModBTermRec where
  id : Nat
  mname : String
  parentModule : Nat
  mnet : Option Nat
deriving DecidableEq

/-- A leaf component placement (dbInst); parentModule records the module whose
getInsts() collection contains it. -/
structure InstRec where
  id : Nat
  parentModule : Nat
deriving DecidableEq

/-- A module instantiation (dbModInst): it sits in parentModule and its master
is the instantiated module definition. -/
structure ModInstRec where
  id : Nat
  parentModule : Nat
  master : Nat
deriving DecidableEq

/-- A module definition (dbModule); modInst is getModInst(), the unique
instantiation of this module in a uniquified hierarchy (none for the top
module). -/
structure ModuleRec where
  id : Nat
  modInst : Option Nat
deriving DecidableEq

/-- A flat net (dbNet) with its signal type. -/
structure DNetRec where
  id : Nat
  sigTy : DbSigType
deriving DecidableEq

/-- The loaded design: the database block contents the adapter traverses. -/
structure Design where
  hierarchy : Bool
  topModule : Nat
  insts : List InstRec
  modinsts : List ModInstRec
  modules : List ModuleRec
  iterms : List ITermRec
  bterms : List BTermRec
  moditerms : List ModITermRec
  modbterms : List ModBTermRec
  dnets : List DNetRec
  modnets : List Nat
deriving DecidableEq

/-- Net handles: the dbObject type tag distinguishes dbNet from dbModNet. -/
inductive NetRef
  | flat (id : Nat)
  | mod (id : Nat)
deriving DecidableEq

/-- Pin handles: the four concrete variants of sta::Pin in the adapter. -/
inductive PinRef
  | iterm (id : Nat)
  | bterm (id : Nat)
  | moditerm (id : Nat)
  | modbterm (id : Nat)
deriving DecidableEq

/-- Instance handles: the sentinel top instance, dbInst, or dbModInst. -/
inductive InstRef
  | top
  | inst (id : Nat)
  | modi (id : Nat)
deriving DecidableEq

/-- Term handles: dbBTerm or dbModBTerm acting as sta::Term. -/
inductive TermRef
  | bterm (id : Nat)
  | modbterm (id : Nat)
deriving DecidableEq

namespace Design

/-- Lookup of a dbITerm by database id. -/
def findITerm (D : Design) (i : Nat) : Option ITermRec :=
  D.iterms.find? (fun t => t.id == i)

/-- Lookup of a dbBTerm by database id. -/
def findBTermId (D : Design) (i : Nat) : Option BTermRec :=
  D.bterms.find? (fun t => t.id == i)

/-- Lookup of a dbModITerm by database id. -/
def findModITerm (D : Design) (i : Nat) : Option ModITermRec :=
  D.moditerms.find? (fun t => t.id == i)

/-- Lookup of a dbModBTerm by database id. -/
def findModBTermId (D : Design) (i : Nat) : Option ModBTermRec :=
  D.modbterms.find? (fun t => t.id == i)

/-- Lookup of a dbModInst by database id. -/
def findModInst (D : Design) (i : Nat) : Option ModInstRec :=
  D.modinsts.find? (fun t => t.id == i)

/-- Lookup of a dbModule by database id. -/
def findModule (D : Design) (i : Nat) : Option ModuleRec :=
  D.modules.find? (fun t => t.id == i)

/-- Lookup of a dbNet by database id. -/
def findDNet (D : Design) (i : Nat) : Option DNetRec :=
  D.dnets.find? (fun t => t.id == i)

/-- dbModule::getInsts(): the dbInsts directly inside a module. -/
def moduleInsts (D : Design) (m : Nat) : List InstRec :=
  D.insts.filter (fun t => t.parentModule == m)

/-- dbModule::getModInsts(): the dbModInsts directly inside a module. -/
def moduleModInsts (D : Design) (m : Nat) : List ModInstRec :=
  D.modinsts.filter (fun t => t.parentModule == m)

/-- dbInst::getITerms(). -/
def instITerms (D : Design) (i : Nat) : List ITermRec :=
  D.iterms.filter (fun t => t.inst == i)

/-- dbNet::getITerms(). -/
def dnetITerms (D : Design) (n : Nat) : List ITermRec :=
  D.iterms.filter (fun t => t.dnet == some n)

/-- dbNet::getBTerms(). -/
def dnetBTerms (D : Design) (n : Nat) : List BTermRec :=
  D.bterms.filter (fun t => t.dnet == some n)

/-- dbModNet::getITerms(). -/
def modnetITerms (D : Design) (n : Nat) : List ITermRec :=
  D.iterms.filter (fun t => t.mnet == some n)

/-- dbModNet::getBTerms(). -/
def modnetBTerms (D : Design) (n : Nat) : List BTermRec :=
  D.bterms.filter (fun t => t.mnet == some n)

/-- dbModNet::getModITerms(). -/
def modnetModITerms (D : Design) (n : Nat) : List ModITermRec :=
  D.moditerms.filter (fun t => t.mnet == some n)

/-- dbModNet::getModBTerms(). -/
def modnetModBTerms (D : Design) (n : Nat) : List ModBTermRec :=
  D.modbterms.filter (fun t => t.mnet == some n)

/-- dbModule::findModBTerm(name). -/
def findModBTerm (D : Design) (m : Nat) (s : String) : Option ModBTermRec :=
  D.modbterms.find? (fun t => t.parentModule == m && t.mname == s)

/-- dbModInst::findModITerm(name). -/
def findModITermOfInst (D : Design) (mi : Nat) (s : String) : Option ModITermRec :=
  D.moditerms.find? (fun t => t.parentModInst == mi && t.mname == s)

/-- dbNetwork::net(const Pin*): an iterm prefers its module net over its flat
net; a bterm pin yields no net; moditerm and modbterm pins yield their module
net. -/
def netOfPin (D : Design) : PinRef → Option NetRef
  | .iterm i =>
    (D.findITerm i).bind (fun t =>
      match t.mnet with
      | some m => some (NetRef.mod m)
      | none => t.dnet.map NetRef.flat)
  | .bterm _ => none
  | .moditerm i => (D.findModITerm i).bind (fun t => t.mnet.map NetRef.mod)
  | .modbterm i => (D.findModBTermId i).bind (fun t => t.mnet.map NetRef.mod)

/-- dbNetwork::term(const Pin*): an iterm has no term; a bterm is its own
term; a moditerm resolves the same-named boundary terminal of its master
module; a modbterm is its own term. -/
def termOfPin (D : Design) : PinRef → Option TermRef
  | .iterm _ => none
  | .bterm i => some (TermRef.bterm i)
  | .moditerm i =>
    (D.findModITerm i).bind (fun t =>
      (D.findModInst t.parentModInst).bind (fun mi =>
        (D.findModBTerm mi.master t.mname).map (fun mb => TermRef.modbterm mb.id)))
  | .modbterm i => (D.findModBTermId i).map (fun _ => TermRef.modbterm i)

/-- dbNetwork::net(const Term*): a modbterm term yields its module net; a
bterm term prefers its module net over its flat net. -/
def netOfTerm (D : Design) : TermRef → Option NetRef
  | .modbterm i => (D.findModBTermId i).bind (fun t => t.mnet.map NetRef.mod)
  | .bterm i =>
    (D.findBTermId i).bind (fun t =>
      match t.mnet with
      | some m => some (NetRef.mod m)
      | none => t.dnet.map NetRef.flat)

/-- dbNetwork::parent(const Instance*): top has no parent; a module instance
returns the module instance of its enclosing module when one exists; every
other case (including every flat instance) returns the top instance. -/
def parentOf (D : Design) : InstRef → Option InstRef
  | .top => none
  | .inst _ => some .top
  | .modi m =>
    match D.findModInst m with
    | none => some .top
    | some mi =>
      match D.findModule mi.parentModule with
      | none => some .top
      | some pm =>
        match pm.modInst with
        | some pinst => some (InstRef.modi pinst)
        | none => some .top

/-- DbInstanceChildIterator: the direct children of an instance, dbInsts
first and then dbModInsts. Without hierarchy only the top instance has
children (all block insts); with hierarchy the top module or the module
instance's master module provides both collections; a flat instance has no
children. -/
def children (D : Design) : InstRef → List InstRef
  | .top =>
    if D.hierarchy then
      (D.moduleInsts D.topModule).map (fun t => InstRef.inst t.id)
        ++ (D.moduleModInsts D.topModule).map (fun t => InstRef.modi t.id)
    else
      D.insts.map (fun t => InstRef.inst t.id)
  | .inst _ => []
  | .modi m =>
    if D.hierarchy then
      match D.findModInst m with
      | none => []
      | some mi =>
        (D.moduleInsts mi.master).map (fun t => InstRef.inst t.id)
          ++ (D.moduleModInsts mi.master).map (fun t => InstRef.modi t.id)
    else []

/-- DbInstancePinIterator: top yields all boundary terminals (no supply
filter); a flat instance yields its non-supply iterms; a module instance
yields nothing because the constructor tests the null member mod_inst_
instead of the local variable it just resolved. -/
def instPins (D : Design) : InstRef → List PinRef
  | .top => D.bterms.map (fun t => PinRef.bterm t.id)
  | .inst i =>
    ((D.instITerms i).filter (fun t => !t.sigTy.isSupply)).map
      (fun t => PinRef.iterm t.id)
  | .modi _ => []

/-- DbNetPinIterator: a flat net yields its non-supply iterms; a module net
yields its non-supply iterms followed by its moditerms when hierarchy is
enabled. -/
def netPins (D : Design) : NetRef → List PinRef
  | .flat n =>
    ((D.dnetITerms n).filter (fun t => !t.sigTy.isSupply)).map
      (fun t => PinRef.iterm t.id)
  | .mod n =>
    ((D.modnetITerms n).filter (fun t => !t.sigTy.isSupply)).map
      (fun t => PinRef.iterm t.id)
      ++ (if D.hierarchy then (D.modnetModITerms n).map (fun t => PinRef.moditerm t.id)
          else [])

/-- dbNetwork::isPower(const Net*) on a flat net handle. -/
def isPower (D : Design) (n : Nat) : Bool :=
  match D.findDNet n with
  | some t => t.sigTy == .power
  | none => false

/-- dbNetwork::isGround(const Net*) on a flat net handle. -/
def isGround (D : Design) (n : Nat) : Bool :=
  match D.findDNet n with
  | some t => t.sigTy == .ground
  | none => false

/-- Resolution used by the visit-below step of visitConnectedPins: a
moditerm's parent module instance is dereferenced, its master module is
taken (uniquified hierarchy: one master per instance) and the boundary
terminal of the same name is looked up. -/
def belowModBTerm (D : Design) (mt : ModITermRec) : Option ModBTermRec :=
  (D.findModInst mt.parentModInst).bind (fun mi => D.findModBTerm mi.master mt.mname)

/-- Resolution used by the visit-above step of visitConnectedPins: a
modbterm's parent module is dereferenced, its instantiating module instance
is taken and the instance terminal of the same name is looked up. -/
def aboveModITerm (D : Design) (mb : ModBTermRec) : Option ModITermRec :=
  (D.findModule mb.parentModule).bind (fun m =>
    m.modInst.bind (fun mi => D.findModITermOfInst mi mb.mname))

/-- Visitor calls issued directly on a module net by visitConnectedPins, in
source order: iterms, bterms, modbterms, moditerms. No supply filtering
happens here. -/
def modnetDirectPins (D : Design) (m : Nat) : List PinRef :=
  (D.modnetITerms m).map (fun t => PinRef.iterm t.id)
    ++ (D.modnetBTerms m).map (fun t => PinRef.bterm t.id)
    ++ (D.modnetModBTerms m).map (fun t => PinRef.modbterm t.id)
    ++ (D.modnetModITerms m).map (fun t => PinRef.moditerm t.id)

/-- Visitor calls issued directly on a flat net by visitConnectedPins:
iterms then bterms, with no supply filtering and no recursion. -/
def dnetDirectPins (D : Design) (n : Nat) : List PinRef :=
  (D.dnetITerms n).map (fun t => PinRef.iterm t.id)
    ++ (D.dnetBTerms n).map (fun t => PinRef.bterm t.id)

/-- The visit-below loop of visitConnectedPins: for each moditerm of the
module net, resolve the boundary terminal inside the child module, visit it,
and recurse (through f) on that pin's net. The visited set threads through
the loop. -/
def vcpBelowAux (D : Design)
    (f : Option NetRef → List (Option NetRef) → Option (List PinRef × List (Option NetRef))) :
    List ModITermRec → List (Option NetRef) → Option (List PinRef × List (Option NetRef))
  | [], v => some ([], v)
  | mt :: rest, v =>
    match D.belowModBTerm mt with
    | none => vcpBelowAux D f rest v
    | some mb =>
      match f (mb.mnet.map NetRef.mod) v with
      | none => none
      | some (out1, v1) =>
        match vcpBelowAux D f rest v1 with
        | none => none
        | some (out2, v2) => some (PinRef.modbterm mb.id :: (out1 ++ out2), v2)

/-- The visit-above loop of visitConnectedPins: for each modbterm of the
module net, resolve the matching instance terminal on the parent module
instance; when found, visit it and recurse (through f) on its net. -/
def vcpAboveAux (D : Design)
    (f : Option NetRef → List (Option NetRef) → Option (List PinRef × List (Option NetRef))) :
    List ModBTermRec → List (Option NetRef) → Option (List PinRef × List (Option NetRef))
  | [], v => some ([], v)
  | mb :: rest, v =>
    match D.aboveModITerm mb with
    | none => vcpAboveAux D f rest v
    | some mi =>
      match f (mi.mnet.map NetRef.mod) v with
      | none => none
      | some (out1, v1) =>
        match vcpAboveAux D f rest v1 with
        | none => none
        | some (out2, v2) => some (PinRef.moditerm mi.id :: (out1 ++ out2), v2)

/-- dbNetwork::visitConnectedPins with an explicit fuel bound. A visited net
returns immediately (the cycle guard); otherwise the net is marked visited
and expanded: a module net visits its direct terminals, then the below loop,
then the above loop; a flat net visits its direct terminals only; a null net
is just marked. The result is the ordered list of visitor calls and the
final visited set; none signals fuel exhaustion (never reached with fuel
exceeding the net count, proved below). -/
def vcp (D : Design) : Nat → Option NetRef → List (Option NetRef) →
    Option (List PinRef × List (Option NetRef))
  | 0, _, _ => none
  | fuel + 1, n, visited =>
    if n ∈ visited then some ([], visited)
    else
      match n with
      | some (NetRef.mod m) =>
        match vcpBelowAux D (vcp D fuel) (D.modnetModITerms m) (n :: visited) with
        | none => none
        | some (outB, v2) =>
          match vcpAboveAux D (vcp D fuel) (D.modnetModBTerms m) v2 with
          | none => none
          | some (outA, v3) => some (D.modnetDirectPins m ++ outB ++ outA, v3)
      | some (NetRef.flat dn) => some (D.dnetDirectPins dn, n :: visited)
      | none => some ([], n :: visited)

/-- The nets one traversal step away from a net: the nets of the resolved
below pins and of the resolved above pins. -/
def stepTargets (D : Design) : Option NetRef → List (Option NetRef)
  | some (NetRef.mod m) =>
    ((D.modnetModITerms m).filterMap (fun mt =>
        (D.belowModBTerm mt).map (fun mb => mb.mnet.map NetRef.mod)))
      ++ ((D.modnetModBTerms m).filterMap (fun mb =>
        (D.aboveModITerm mb).map (fun mi => mi.mnet.map NetRef.mod)))
  | _ => []

/-- All pins the expansion of a single net visits: direct pins plus resolved
below and above boundary pins. -/
def expandPins (D : Design) : Option NetRef → List PinRef
  | some (NetRef.mod m) =>
    D.modnetDirectPins m
      ++ ((D.modnetModITerms m).filterMap (fun mt =>
            (D.belowModBTerm mt).map (fun mb => PinRef.modbterm mb.id)))
      ++ ((D.modnetModBTerms m).filterMap (fun mb =>
            (D.aboveModITerm mb).map (fun mi => PinRef.moditerm mi.id)))
  | some (NetRef.flat dn) => D.dnetDirectPins dn
  | none => []

/-- One traversal step between (possibly null) net handles. -/
def stepRel (D : Design) (a b : Option NetRef) : Prop :=
  b ∈ D.stepTargets a

/-- Every key the traversal can ever insert into the visited set: the null
net plus every net of the design. -/
def allKeys (D : Design) : List (Option NetRef) :=
  none ::
    (D.dnets.map (fun t => some (NetRef.flat t.id))
      ++ D.modnets.map (fun m => some (NetRef.mod m)))

/-- Well-formedness needed by the traversal bound: module-net references on
module terminals point at nets of the design. -/
def wfNetsB (D : Design) : Bool :=
  D.moditerms.all (fun mt => mt.mnet.all (fun m => decide (m ∈ D.modnets)))
    && D.modbterms.all (fun mb => mb.mnet.all (fun m => decide (m ∈ D.modnets)))

/-- Number of traversal keys not yet in the visited set. -/
def unvisitedCount (D : Design) (v : List (Option NetRef)) : Nat :=
  ((D.allKeys).filter (fun k => decide (k ∉ v))).length

/-- Postcondition of one vcp call: the visited set only grows, the argument
net ends up visited, and every net that became visited had its expansion
pins emitted into the output and its step targets driven into the final
visited set. -/
abbrev VcpPost (D : Design) (visited : List (Option NetRef)) (n : Option NetRef)
    (out : List PinRef) (vfin : List (Option NetRef)) : Prop :=
  visited ⊆ vfin ∧ n ∈ vfin ∧
    ∀ m ∈ vfin, m ∈ visited ∨
      ((∀ p ∈ D.expandPins m, p ∈ out) ∧ (∀ t ∈ D.stepTargets m, t ∈ vfin))

end Design

/-- The native object type tags the adapter dispatches on. The nine timing
related kinds appear in the unique-id switch; otherObj stands for any other
database type (the default / unrecognized case). -/
inductive DbObjectType
  | itermObj
  | btermObj
  | instObj
  | netObj
  | modITermObj
  | modBTermObj
  | modInstObj
  | modNetObj
  | moduleObj
  | otherObj
deriving DecidableEq, Fintype

/-- Severity of the logger call a code path performs: logger_->error and
logger_->critical abort the operation (tiers one of the spec), logger_->warn
logs and continues, silent performs no logging. -/
inductive LogAction
  | silent
  | warning
  | errorFatal
  | criticalFatal
deriving DecidableEq

/-- Modelled from the spec: the constants DBIDTAG_WIDTH and DBITERM_ID ..
DBMODULE_ID are declared in db_sta/dbNetwork.hh, which is not among the
sources here. Per the spec (and the source comment above getDbNwkObjectId)
the lower 4 bits encode the type, one distinct tag per entity kind; the nine
tags are modelled as the codes 0..8 in the order of the dispatch switch. -/
def typeTag : DbObjectType → Nat
  | .itermObj => 0
  | .btermObj => 1
  | .instObj => 2
  | .netObj => 3
  | .modITermObj => 4
  | .modBTermObj => 5
  | .modInstObj => 6
  | .modNetObj => 7
  | .moduleObj => 8
  | .otherObj => 15

/-- Modelled from the spec: the tag field width (the source comment states
the lower 4 bits encode the type). -/
def dbIdTagWidth : Nat := 4

/-- The largest value of the 64-bit ObjectId space (the spec fixes
identify to u64). -/
def objectIdMax : Nat := 2 ^ 64 - 1

/-- dbNetwork::getDbNwkObjectId: database ids exceeding the shifted capacity
are a fatal error; a recognized type returns its id shifted by the tag
width with the type tag in the low bits; an unrecognized type is a fatal
error (logger_->error 2017). -/
def getDbNwkObjectId (typ : DbObjectType) (dbId : Nat) : Except LogAction Nat :=
  if dbId > objectIdMax >>> dbIdTagWidth then
    Except.error LogAction.errorFatal
  else
    match typ with
    | .itermObj => Except.ok ((dbId <<< dbIdTagWidth) ||| typeTag .itermObj)
    | .btermObj => Except.ok ((dbId <<< dbIdTagWidth) ||| typeTag .btermObj)
    | .instObj => Except.ok ((dbId <<< dbIdTagWidth) ||| typeTag .instObj)
    | .netObj => Except.ok ((dbId <<< dbIdTagWidth) ||| typeTag .netObj)
    | .modITermObj => Except.ok ((dbId <<< dbIdTagWidth) ||| typeTag .modITermObj)
    | .modBTermObj => Except.ok ((dbId <<< dbIdTagWidth) ||| typeTag .modBTermObj)
    | .modInstObj => Except.ok ((dbId <<< dbIdTagWidth) ||| typeTag .modInstObj)
    | .modNetObj => Except.ok ((dbId <<< dbIdTagWidth) ||| typeTag .modNetObj)
    | .moduleObj => Except.ok ((dbId <<< dbIdTagWidth) ||| typeTag .moduleObj)
    | .otherObj => Except.error LogAction.errorFatal

/-- The entities of a non-hierarchical design relevant to the id scheme. -/
inductive NHEntity
  | top
  | instE (id : Nat)
  | netE (id : Nat)
  | itermPin (id : Nat)
  | btermPin (id : Nat)
deriving DecidableEq

/-- The 32-bit modulus of the native database id type. -/
def uint32Mod : Nat := 2 ^ 32

/-- dbNetwork::id with hierarchy disabled: the top instance is 0, instances
and nets return their raw database ids (dbNetwork::id(const Instance*) and
id(const Net*)), and pins use the low-bit scheme of id(const Pin*): iterm
ids shifted left one bit, bterm ids shifted with the low bit set (the shift
is performed on the 32-bit database id). -/
def idNonHier : NHEntity → Nat
  | .top => 0
  | .instE i => i
  | .netE i => i
  | .itermPin i => (i <<< 1) % uint32Mod
  | .btermPin i => (((i <<< 1) % uint32Mod) + 1) % uint32Mod

/-- Which of the four output slots of staToDb(const Pin*, ...) is set. -/
inductive PinSlot
  | iterm
  | bterm
  | moditerm
  | modbterm
deriving DecidableEq

/-- Which of the two output slots of staToDb(const Instance*, ...) is set. -/
inductive InstSlot
  | inst
  | modinst
deriving DecidableEq

/-- Which of the two output slots of staToDb(const Net*, ...) is set. -/
inductive NetSlot
  | dnet
  | modnet
deriving DecidableEq

/-- dbNetwork::staToDb(const Pin*, ...): dispatch on the recorded object
type; an unrecognized type leaves every slot null and merely warns
(logger_->warn 2018), continuing execution. -/
def staToDbPinSlot : DbObjectType → Option PinSlot × LogAction
  | .itermObj => (some PinSlot.iterm, LogAction.silent)
  | .btermObj => (some PinSlot.bterm, LogAction.silent)
  | .modBTermObj => (some PinSlot.modbterm, LogAction.silent)
  | .modITermObj => (some PinSlot.moditerm, LogAction.silent)
  | _ => (none, LogAction.warning)

/-- dbNetwork::staToDb(const Instance*, ...) on a non-top, non-null handle:
an unrecognized type is logger_->critical 2016 (process-terminating). -/
def staToDbInstSlot : DbObjectType → Option InstSlot × LogAction
  | .instObj => (some InstSlot.inst, LogAction.silent)
  | .modInstObj => (some InstSlot.modinst, LogAction.silent)
  | _ => (none, LogAction.criticalFatal)

/-- dbNetwork::staToDb(const Net*, ...): an unrecognized type silently
leaves both slots null (no logging at all). -/
def staToDbNetSlot : DbObjectType → Option NetSlot × LogAction
  | .netObj => (some NetSlot.dnet, LogAction.silent)
  | .modNetObj => (some NetSlot.modnet, LogAction.silent)
  | _ => (none, LogAction.silent)

/-!
Driver-index tracking (dbNetwork::connectPinAfter, disconnectPinBefore,
deleteNetBefore, deleteNet, makeNet). The model keeps the flat
connectivity of pins explicitly: a fixed pin population with a driver flag
(direction output), a pin-to-net connection map, the live nets, and the
net_drvr_pin_map_ entries.
-/

/-- The fixed pin population: pin id paired with its isDriver flag. -/
structure DrvDesign where
  pins : List (Nat × Bool)
deriving DecidableEq

/-- Mutable state: live nets, the pin-to-net connections, and the
net_drvr_pin_map_ entries (net id to driver pin list). -/
structure DrvState where
  nets : List Nat
  conn : List (Nat × Nat)
  drvr : List (Nat × List Nat)
deriving DecidableEq

/-- The net a pin currently resolves to. -/
def connOf (s : DrvState) (p : Nat) : Option Nat :=
  (s.conn.find? (fun e => e.1 == p)).map (fun e => e.2)

/-- net_drvr_pin_map_.findKey. -/
def drvrEntry (s : DrvState) (n : Nat) : Option (List Nat) :=
  (s.drvr.find? (fun e => e.1 == n)).map (fun e => e.2)

/-- Network::isDriver of a pin, from the fixed direction flag. -/
def isDriverPin (Dd : DrvDesign) (p : Nat) : Bool :=
  (((Dd.pins.find? (fun e => e.1 == p))).map (fun e => e.2)).getD false

/-- Membership of a pin id in the design. -/
def hasPin (Dd : DrvDesign) (p : Nat) : Bool :=
  Dd.pins.any (fun e => e.1 == p)

/-- dbNetwork::connectPinAfter: if the pin is a driver and its net already
has an index entry, insert the pin into that entry (no entry is created). -/
def connectPinAfter (Dd : DrvDesign) (s : DrvState) (p : Nat) : DrvState :=
  if isDriverPin Dd p then
    match connOf s p with
    | some n =>
      { s with drvr := s.drvr.map (fun e => if e.1 == n then (e.1, p :: e.2) else e) }
    | none => s
  else s

/-- dbNetwork::disconnectPinBefore: if the pin has a net and is a driver,
erase it from that net's index entry when one exists. -/
def disconnectPinBefore (Dd : DrvDesign) (s : DrvState) (p : Nat) : DrvState :=
  match connOf s p with
  | some n =>
    if isDriverPin Dd p then
      { s with drvr := s.drvr.map (fun e => if e.1 == n then (e.1, e.2.filter (fun q => q != p)) else e) }
    else s
  | none => s

/-- dbNetwork::deleteNetBefore: drop the net's index entry. -/
def deleteNetBefore (s : DrvState) (n : Nat) : DrvState :=
  { s with drvr := s.drvr.filter (fun e => e.1 != n) }

/-- The layer-level mutation operations routed through the hooks. -/
inductive DrvOp
  | connect (p n : Nat)
  | disconnect (p : Nat)
  | deleteNet (n : Nat)
  | makeNet (n : Nat)
deriving DecidableEq

/-- One layer operation. connect reconnects the pin (the database fires the
disconnect hook first when the pin was connected, then connects, then fires
connectPinAfter); disconnect fires disconnectPinBefore then clears the
connection; deleteNet fires deleteNetBefore then destroys the net and its
connections; makeNet creates a fresh net with no index entry. -/
def applyDrvOp (Dd : DrvDesign) (s : DrvState) : DrvOp → DrvState
  | .connect p n =>
    if hasPin Dd p && s.nets.contains n then
      let s1 := disconnectPinBefore Dd s p
      let s2 : DrvState :=
        { s1 with conn := (p, n) :: s1.conn.filter (fun e => e.1 != p) }
      connectPinAfter Dd s2 p
    else s
  | .disconnect p =>
    let s1 := disconnectPinBefore Dd s p
    { s1 with conn := s1.conn.filter (fun e => e.1 != p) }
  | .deleteNet n =>
    let s1 := deleteNetBefore s n
    { nets := s1.nets.filter (fun m => m != n),
      conn := s1.conn.filter (fun e => e.2 != n),
      drvr := s1.drvr }
  | .makeNet n =>
    if s.nets.contains n then s else { s with nets := n :: s.nets }

/-- A sequence of layer operations. -/
def applyDrvOps (Dd : DrvDesign) (s : DrvState) (ops : List DrvOp) : DrvState :=
  ops.foldl (applyDrvOp Dd) s

/-- State well-formedness: the connection map has at most one entry per
pin. -/
abbrev DrvWf (s : DrvState) : Prop :=
  (s.conn.map (fun e => e.1)).Nodup

/-- The driver-index invariant: every index entry belongs to a live net and
holds exactly the currently-connected driver pins of that net. -/
abbrev DrvInv (Dd : DrvDesign) (s : DrvState) : Prop :=
  ∀ e ∈ s.drvr,
    e.1 ∈ s.nets ∧
      (∀ p ∈ e.2, connOf s p = some e.1 ∧ isDriverPin Dd p = true) ∧
      (∀ pr ∈ Dd.pins, pr.2 = true → connOf s pr.1 = some e.1 → pr.1 ∈ e.2)

/-!
Library builder (dbNetwork::makeCell): ports, liberty cross references and
warnings for one master built against the loaded liberty cells.
-/

/-- A master terminal (dbMTerm) of a physical-library cell. -/
structure MTermRec where
  mtname : String
  sigTy : DbSigType
  ioTy : DbIoType
deriving DecidableEq

/-- A physical-library master (dbMaster). -/
structure MasterRec where
  cname : String
  mterms : List MTermRec
deriving DecidableEq

/-- A timing-library cell: its name, its liberty port names, and its pg-port
names. -/
structure LibCellRec where
  lcname : String
  lports : List String
  pgports : List String
deriving DecidableEq

/-- findLibertyCell by name over the loaded liberty cells. -/
def findLibertyCell (lib : List LibCellRec) (s : String) : Option LibCellRec :=
  lib.find? (fun c => c.lcname == s)

/-- The port loop of dbNetwork::makeCell: every mterm makes a port; with a
same-named liberty cell present, a found liberty port records a cross
reference, otherwise a warning (ORD 2001) fires unless the direction is
power/ground or the liberty cell has a same-named pg-port. Returns the
created port names, the cross-referenced port names, and the warned port
names. -/
def makeCellLoop (lc : Option LibCellRec) :
    List MTermRec → List String × List String × List String
  | [] => ([], [], [])
  | mt :: rest =>
    let r := makeCellLoop lc rest
    match lc with
    | none => (mt.mtname :: r.1, r.2.1, r.2.2)
    | some c =>
      if c.lports.contains mt.mtname then
        (mt.mtname :: r.1, mt.mtname :: r.2.1, r.2.2)
      else if !(dbToStaDir mt.sigTy mt.ioTy).isPowerGround
          && !(c.pgports.contains mt.mtname) then
        (mt.mtname :: r.1, r.2.1, mt.mtname :: r.2.2)
      else
        (mt.mtname :: r.1, r.2.1, r.2.2)

/-- dbNetwork::makeCell for one master against the loaded liberty cells. -/
def makeCell8 (lib : List LibCellRec) (master : MasterRec) :
    List String × List String × List String :=
  makeCellLoop (findLibertyCell lib master.cname) master.mterms

/-!
Edit connect (dbNetwork::connect overloads).
-/

/-- A boundary terminal as mutated by connect at the top instance. -/
structure CBTermRec where
  bname : String
  sigTy : DbSigType
  ioTy : DbIoType
  net : Option Nat
deriving DecidableEq

/-- A flat instance terminal as mutated by connect below top, identified by
its owning instance and its mterm name. -/
structure CITermRec where
  inst : Nat
  mterm : String
  net : Option Nat
deriving DecidableEq

/-- The mutable connectivity state seen by the connect overloads. -/
structure ConnState where
  bterms : List CBTermRec
  citerms : List CITermRec
deriving DecidableEq

/-- A logical port with its direction. -/
structure PortRec where
  pname : String
  dir : PortDir
deriving DecidableEq

/-- The pin returned by connect. -/
inductive ConnPin
  | bterm (name : String)
  | iterm (inst : Nat) (mterm : String)
deriving DecidableEq

/-- dbNetwork::connect(Instance*, Port*, Net*). At top, an existing
same-named bterm is reconnected to the net and returned with its signal/IO
types untouched; a missing bterm is created and its signal/IO types are set
from the port direction. Below top, a flat instance's iterm for the port's
mterm is connected and returned; a module instance yields no pin. none
models the logger_->critical on an unknown port direction. -/
def connectPort (s : ConnState) (inst : InstRef) (port : PortRec) (n : Nat) :
    Option (ConnState × Option ConnPin) :=
  match inst with
  | .top =>
    match s.bterms.find? (fun b => b.bname == port.pname) with
    | some _ =>
      some ({ s with bterms := s.bterms.map (fun b =>
          if b.bname == port.pname then { b with net := some n } else b) },
        some (ConnPin.bterm port.pname))
    | none =>
      match staToDbDir port.dir with
      | none => none
      | some (sg, io) =>
        some ({ s with bterms := ⟨port.pname, sg, io, some n⟩ :: s.bterms },
          some (ConnPin.bterm port.pname))
  | .inst i =>
    match s.citerms.find? (fun t => t.inst == i && t.mterm == port.pname) with
    | some _ =>
      some ({ s with citerms := s.citerms.map (fun t =>
          if t.inst == i && t.mterm == port.pname then { t with net := some n } else t) },
        some (ConnPin.iterm i port.pname))
    | none => some (s, none)
  | .modi _ => some (s, none)

/-- dbNetwork::connect(Instance*, LibertyPort*, Net*). Identical to the
Port* overload below top; at top the signal/IO types are written from the
port direction in both the reuse branch and the create branch (the
setSigType/setIoType calls sit after the if/else). -/
def connectLibPort (s : ConnState) (inst : InstRef) (port : PortRec) (n : Nat) :
    Option (ConnState × Option ConnPin) :=
  match inst with
  | .top =>
    match staToDbDir port.dir with
    | none => none
    | some (sg, io) =>
      match s.bterms.find? (fun b => b.bname == port.pname) with
      | some _ =>
        some ({ s with bterms := s.bterms.map (fun b =>
            if b.bname == port.pname then
              { b with net := some n, sigTy := sg, ioTy := io }
            else b) },
          some (ConnPin.bterm port.pname))
      | none =>
        some ({ s with bterms := ⟨port.pname, sg, io, some n⟩ :: s.bterms },
          some (ConnPin.bterm port.pname))
  | .inst i =>
    match s.citerms.find? (fun t => t.inst == i && t.mterm == port.pname) with
    | some _ =>
      some ({ s with citerms := s.citerms.map (fun t =>
          if t.inst == i && t.mterm == port.pname then { t with net := some n } else t) },
        some (ConnPin.iterm i port.pname))
    | none => some (s, none)
  | .modi _ => some (s, none)

/-!
Concrete designs and states used by counterexamples and witnesses.
-/

/-- A two-level hierarchical design: module instance 5 (master module 10)
sits in the top module 0 and carries moditerm 1 (port p) on parent module
net 100; inside module 10, modbterm 2 (port p) sits on child module net 200
together with iterm 3 of leaf instance 7. Module instance 6 (master module
20) also sits inside module 10. -/
def exHier : Design :=
  { hierarchy := true
    topModule := 0
    insts := [⟨7, 10⟩]
    modinsts := [⟨5, 0, 10⟩, ⟨6, 10, 20⟩]
    modules := [⟨0, none⟩, ⟨10, some 5⟩, ⟨20, some 6⟩]
    iterms := [⟨3, 7, "A", DbSigType.signal, none, some 200⟩]
    bterms := []
    moditerms := [⟨1, "p", 5, some 100⟩]
    modbterms := [⟨2, "p", 10, some 200⟩]
    dnets := []
    modnets := [100, 200] }

/-- A flat design with net 1 carrying a power iterm (id 1) and a signal
iterm (id 2) on leaf instance 1. -/
def exSupply : Design :=
  { hierarchy := false
    topModule := 0
    insts := [⟨1, 0⟩]
    modinsts := []
    modules := [⟨0, none⟩]
    iterms := [⟨1, 1, "VDD", DbSigType.power, some 1, none⟩,
               ⟨2, 1, "A", DbSigType.signal, some 1, none⟩]
    bterms := []
    moditerms := []
    modbterms := []
    dnets := [⟨1, DbSigType.signal⟩]
    modnets := [] }

/-- A design whose iterm 1 and bterm 4 each carry both a flat net (50) and a
module net (60) association. -/
def exDual : Design :=
  { hierarchy := true
    topModule := 0
    insts := [⟨1, 0⟩]
    modinsts := []
    modules := [⟨0, none⟩]
    iterms := [⟨1, 1, "A", DbSigType.signal, some 50, some 60⟩]
    bterms := [⟨4, "in", DbSigType.signal, DbIoType.input, some 50, some 60⟩]
    moditerms := []
    modbterms := []
    dnets := [⟨50, DbSigType.signal⟩]
    modnets := [60] }

/-- Driver-index pin population: pin 1 is a driver (output direction), pin 2
is not. -/
def exDrvDesign : DrvDesign := ⟨[(1, true), (2, false)]⟩

/-- Driver-index initial state: net 10 is live with an (empty, exact) index
entry. -/
def exDrvState : DrvState := ⟨[10], [], [(10, [])]⟩

/-- A sequence of layer operations exercising connect, disconnect, deleteNet
and makeNet. -/
def exDrvOps : List DrvOp :=
  [DrvOp.connect 1 10, DrvOp.connect 2 10, DrvOp.disconnect 1,
    DrvOp.makeNet 11, DrvOp.connect 1 11, DrvOp.deleteNet 10]

/-- A connect state whose only bterm a has signal type SIGNAL and IO type
INPUT and no net. -/
def exConnState : ConnState := ⟨[⟨"a", DbSigType.signal, DbIoType.input, none⟩], []⟩

/-- A master with two signal ports, one power port and one port X missing
from the liberty cell. -/
def exMaster : MasterRec :=
  ⟨"bufx1", [⟨"A", DbSigType.signal, DbIoType.input⟩,
             ⟨"Z", DbSigType.signal, DbIoType.output⟩,
             ⟨"VDD", DbSigType.power, DbIoType.inout⟩,
             ⟨"X", DbSigType.signal, DbIoType.input⟩]⟩

/-- A liberty library with the matching cell: ports A and Z, pg-port VDD. -/
def exLib : List LibCellRec := [⟨"bufx1", ["A", "Z"], ["VDD"]⟩]

/-!
Theorems. Helper lemmas come first, then one theorem per claim with its
witness or counterexample.
-/

/-- Shifting by the tag width and or-ing a tag below 16 is the same as the
arithmetic combination 16 * id + tag. -/
theorem shiftLeft_or_eq (a t : Nat) (ht : t < 16) : (a <<< 4) ||| t = 16 * a + t := by
  apply Nat.eq_of_testBit_eq
  intro j
  have h2 : (16 : Nat) * a + t = 2 ^ 4 * a + t := by ring
  rw [h2, Nat.testBit_mul_pow_two_add a (by omega : t < 2 ^ 4) j,
    Nat.testBit_lor, Nat.testBit_shiftLeft]
  by_cases hj : j < 4
  · have h4 : ¬(4 ≤ j) := by omega
    simp [hj, h4]
  · have h4 : 4 ≤ j := by omega
    have htj : t.testBit j = false := by
      apply Nat.testBit_lt_two_pow
      calc t < 16 := ht
        _ = 2 ^ 4 := by norm_num
        _ ≤ 2 ^ j := Nat.pow_le_pow_right (by norm_num) h4
    simp [hj, h4, htj]

/-- The nine recognized type tags are pairwise distinct. -/
theorem typeTag_inj : ∀ t1 t2 : DbObjectType, t1 ≠ DbObjectType.otherObj →
    t2 ≠ DbObjectType.otherObj → typeTag t1 = typeTag t2 → t1 = t2 := by decide

/-- Every tag is below 16. -/
theorem typeTag_lt : ∀ t : DbObjectType, typeTag t < 16 := by decide

/-- Characterization of a successful unique-id encoding. -/
theorem getDbNwkObjectId_ok (t : DbObjectType) (i v : Nat)
    (h : getDbNwkObjectId t i = Except.ok v) :
    t ≠ DbObjectType.otherObj ∧ v = 16 * i + typeTag t := by
  unfold getDbNwkObjectId at h
  by_cases hc : i > objectIdMax >>> dbIdTagWidth
  · simp [hc] at h
  · simp only [hc, if_false] at h
    cases t <;> simp only [Except.ok.injEq] at h <;>
      first
      | (exact absurd h (by simp))
      | (refine ⟨by simp, ?_⟩
         rw [← h, dbIdTagWidth, shiftLeft_or_eq _ _ (typeTag_lt _)])

/-- C3 (amended): with hierarchy enabled the tagged identifier scheme is
injective across all nine entity kinds and never yields 0 for a live entity
(ids start at 1), so the top instance's special value 0 collides with
nothing; without hierarchy the pin identifiers separate iterms from bterms
through the low bit, are injective per kind, and avoid 0 — but identifiers
of different families (instances and nets keep their raw database ids) can
coincide. -/
theorem c3_id_scheme :
    (∀ t1 i1 t2 i2 v1 v2,
      getDbNwkObjectId t1 i1 = Except.ok v1 →
      getDbNwkObjectId t2 i2 = Except.ok v2 →
      (t1 ≠ t2 ∨ i1 ≠ i2) → v1 ≠ v2) ∧
    (∀ t i v, 1 ≤ i → getDbNwkObjectId t i = Except.ok v → v ≠ 0) ∧
    (∀ i1 i2, 1 ≤ i1 → i1 < 2 ^ 31 → 1 ≤ i2 → i2 < 2 ^ 31 →
      idNonHier (NHEntity.itermPin i1) ≠ idNonHier (NHEntity.btermPin i2) ∧
      (i1 ≠ i2 → idNonHier (NHEntity.itermPin i1) ≠ idNonHier (NHEntity.itermPin i2)) ∧
      (i1 ≠ i2 → idNonHier (NHEntity.btermPin i1) ≠ idNonHier (NHEntity.btermPin i2)) ∧
      idNonHier (NHEntity.itermPin i1) ≠ idNonHier NHEntity.top ∧
      idNonHier (NHEntity.btermPin i1) ≠ idNonHier NHEntity.top) := by
  refine ⟨?_, ?_, ?_⟩
  · intro t1 i1 t2 i2 v1 v2 h1 h2 hne
    obtain ⟨ho1, hv1⟩ := getDbNwkObjectId_ok t1 i1 v1 h1
    obtain ⟨ho2, hv2⟩ := getDbNwkObjectId_ok t2 i2 v2 h2
    intro heq
    have htag : typeTag t1 = typeTag t2 ∧ i1 = i2 := by
      have l1 := typeTag_lt t1
      have l2 := typeTag_lt t2
      constructor <;> omega
    rcases hne with hne | hne
    · exact hne (typeTag_inj t1 t2 ho1 ho2 htag.1)
    · exact hne htag.2
  · intro t i v hi h
    obtain ⟨_, hv⟩ := getDbNwkObjectId_ok t i v h
    omega
  · intro i1 i2 h1 h1b h2 h2b
    have e1 : idNonHier (NHEntity.itermPin i1) = 2 * i1 := by
      simp only [idNonHier, Nat.shiftLeft_eq, uint32Mod, pow_one]
      rw [Nat.mod_eq_of_lt (by omega)]
      ring
    have e2 : idNonHier (NHEntity.btermPin i2) = 2 * i2 + 1 := by
      simp only [idNonHier, Nat.shiftLeft_eq, uint32Mod, pow_one]
      rw [Nat.mod_eq_of_lt (by omega), Nat.mod_eq_of_lt (by omega)]
      ring
    have e3 : idNonHier (NHEntity.itermPin i2) = 2 * i2 := by
      simp only [idNonHier, Nat.shiftLeft_eq, uint32Mod, pow_one]
      rw [Nat.mod_eq_of_lt (by omega)]
      ring
    have e4 : idNonHier (NHEntity.btermPin i1) = 2 * i1 + 1 := by
      simp only [idNonHier, Nat.shiftLeft_eq, uint32Mod, pow_one]
      rw [Nat.mod_eq_of_lt (by omega), Nat.mod_eq_of_lt (by omega)]
      ring
    have e0 : idNonHier NHEntity.top = 0 := rfl
    refine ⟨?_, ?_, ?_, ?_, ?_⟩ <;> simp only [e0, e1, e2, e3, e4] <;> omega

/-- C3 counterexample: with hierarchy disabled, the instance with database
id 1 and the net with database id 1 are distinct live entities mapped to
the same identifier, so the scheme is not injective across kinds. -/
theorem c3_counterexample :
    idNonHier (NHEntity.instE 1) = idNonHier (NHEntity.netE 1) ∧
    NHEntity.instE 1 ≠ NHEntity.netE 1 := by decide

/-- C3 witness: the hierarchical scheme instantiated at iterm 1 and bterm 1
and the non-hierarchical pin scheme instantiated at ids 1 and 2. -/
theorem c3_id_scheme_witness :
    getDbNwkObjectId DbObjectType.itermObj 1 = Except.ok 16 ∧
    getDbNwkObjectId DbObjectType.btermObj 1 = Except.ok 17 ∧
    (16 : Nat) ≠ 17 ∧
    (1 : Nat) ≤ 1 ∧ (1 : Nat) < 2 ^ 31 ∧ (2 : Nat) ≤ 2 ∧ (2 : Nat) < 2 ^ 31 ∧
    idNonHier (NHEntity.itermPin 1) ≠ idNonHier (NHEntity.btermPin 2) ∧
    idNonHier (NHEntity.itermPin 1) ≠ idNonHier NHEntity.top :=
  ⟨rfl, rfl,
    c3_id_scheme.1 DbObjectType.itermObj 1 DbObjectType.btermObj 1 16 17
      rfl rfl (Or.inl (by decide)),
    by decide, by decide, by decide, by decide,
    (c3_id_scheme.2.2 1 2 (by decide) (by decide) (by decide) (by decide)).1,
    (c3_id_scheme.2.2 1 2 (by decide) (by decide) (by decide) (by decide)).2.2.2.1⟩

/-- C4 (amended): an unrecognized native type is fatal in the Instance
classification (logger_->critical) and in unique-id generation
(logger_->error), but the Pin classification merely warns and continues
with all four slots null, and the Net classification silently leaves both
slots null. -/
theorem c4_unrecognized_classification (t : DbObjectType) :
    (t ≠ DbObjectType.itermObj → t ≠ DbObjectType.btermObj →
      t ≠ DbObjectType.modBTermObj → t ≠ DbObjectType.modITermObj →
      staToDbPinSlot t = (none, LogAction.warning)) ∧
    (t ≠ DbObjectType.instObj → t ≠ DbObjectType.modInstObj →
      staToDbInstSlot t = (none, LogAction.criticalFatal)) ∧
    (t ≠ DbObjectType.netObj → t ≠ DbObjectType.modNetObj →
      staToDbNetSlot t = (none, LogAction.silent)) ∧
    (∀ i, t = DbObjectType.otherObj →
      getDbNwkObjectId t i = Except.error LogAction.errorFatal) := by
  refine ⟨?_, ?_, ?_, ?_⟩
  · cases t <;> simp [staToDbPinSlot]
  · cases t <;> simp [staToDbInstSlot]
  · cases t <;> simp [staToDbNetSlot]
  · intro i ht
    subst ht
    unfold getDbNwkObjectId
    split <;> rfl

/-- C4 counterexample: a handle whose recorded type is a net kind passed
through the Pin classification path produces only a warning and continues
(all slots null); it is not a fatal error, and the Net classification path
for an instance kind does not log at all. -/
theorem c4_counterexample :
    staToDbPinSlot DbObjectType.netObj = (none, LogAction.warning) ∧
    LogAction.warning ≠ LogAction.errorFatal ∧
    LogAction.warning ≠ LogAction.criticalFatal ∧
    staToDbNetSlot DbObjectType.instObj = (none, LogAction.silent) := by decide

/-- C4 witness: the four classification paths evaluated at the unrecognized
type. -/
theorem c4_unrecognized_classification_witness :
    staToDbPinSlot DbObjectType.otherObj = (none, LogAction.warning) ∧
    staToDbInstSlot DbObjectType.otherObj = (none, LogAction.criticalFatal) ∧
    staToDbNetSlot DbObjectType.otherObj = (none, LogAction.silent) ∧
    getDbNwkObjectId DbObjectType.otherObj 1 = Except.error LogAction.errorFatal :=
  ⟨(c4_unrecognized_classification DbObjectType.otherObj).1
      (by decide) (by decide) (by decide) (by decide),
    (c4_unrecognized_classification DbObjectType.otherObj).2.1 (by decide) (by decide),
    (c4_unrecognized_classification DbObjectType.otherObj).2.2.1 (by decide) (by decide),
    (c4_unrecognized_classification DbObjectType.otherObj).2.2.2 1 rfl⟩

/-- C2: a pin whose underlying iterm carries both a flat net and a module
net resolves to the module net. -/
theorem c2_net_prefers_module_net (D : Design) (i : Nat) (t : ITermRec)
    (hfind : D.findITerm i = some t) (m d : Nat)
    (hm : t.mnet = some m) (_hd : t.dnet = some d) :
    D.netOfPin (PinRef.iterm i) = some (NetRef.mod m) := by
  simp [Design.netOfPin, hfind, hm]

/-- C2 witness: iterm 1 of the dual-association design carries flat net 50
and module net 60 and resolves to module net 60. -/
theorem c2_net_prefers_module_net_witness :
    exDual.findITerm 1 = some ⟨1, 1, "A", DbSigType.signal, some 50, some 60⟩ ∧
    exDual.netOfPin (PinRef.iterm 1) = some (NetRef.mod 60) :=
  ⟨rfl,
    c2_net_prefers_module_net exDual 1 ⟨1, 1, "A", DbSigType.signal, some 50, some 60⟩
      rfl 60 50 rfl rfl⟩

/-- C10: a boundary-terminal pin has no net through the Pin interface; its
term is the bterm itself, and the Term interface resolves the net with the
module net preferred over the flat net. -/
theorem c10_bterm_net_via_term (D : Design) (i : Nat) (b : BTermRec)
    (hfind : D.findBTermId i = some b) :
    D.netOfPin (PinRef.bterm i) = none ∧
    D.termOfPin (PinRef.bterm i) = some (TermRef.bterm i) ∧
    D.netOfTerm (TermRef.bterm i)
      = (match b.mnet with
        | some m => some (NetRef.mod m)
        | none => b.dnet.map NetRef.flat) := by
  refine ⟨rfl, rfl, ?_⟩
  simp [Design.netOfTerm, hfind]

/-- C10 witness: bterm 4 of the dual-association design has no net as a
pin, and its term resolves to module net 60 rather than flat net 50. -/
theorem c10_bterm_net_via_term_witness :
    exDual.findBTermId 4 = some ⟨4, "in", DbSigType.signal, DbIoType.input, some 50, some 60⟩ ∧
    exDual.netOfPin (PinRef.bterm 4) = none ∧
    exDual.termOfPin (PinRef.bterm 4) = some (TermRef.bterm 4) ∧
    exDual.netOfTerm (TermRef.bterm 4) = some (NetRef.mod 60) :=
  ⟨rfl,
    (c10_bterm_net_via_term exDual 4
        ⟨4, "in", DbSigType.signal, DbIoType.input, some 50, some 60⟩ rfl).1,
    (c10_bterm_net_via_term exDual 4
        ⟨4, "in", DbSigType.signal, DbIoType.input, some 50, some 60⟩ rfl).2.1,
    (c10_bterm_net_via_term exDual 4
        ⟨4, "in", DbSigType.signal, DbIoType.input, some 50, some 60⟩ rfl).2.2⟩

/-- C9 (amended): at the top instance, connect creates a missing bterm with
signal/IO types taken from the port direction, but reuses an existing
same-named bterm changing only its net — the Port* overload leaves the
existing signal/IO types untouched, while the LibertyPort* overload writes
them in both branches; below top, the flat instance's iterm matching the
port is connected and returned. -/
theorem c9_connect_direction (s : ConnState) (port : PortRec) (n : Nat)
    (sg : DbSigType) (io : DbIoType)
    (hdir : staToDbDir port.dir = some (sg, io)) :
    (s.bterms.find? (fun b => b.bname == port.pname) = none →
      ∃ s2, connectPort s InstRef.top port n
            = some (s2, some (ConnPin.bterm port.pname)) ∧
        CBTermRec.mk port.pname sg io (some n) ∈ s2.bterms) ∧
    (∀ b, s.bterms.find? (fun b => b.bname == port.pname) = some b →
      ∃ s2, connectPort s InstRef.top port n
            = some (s2, some (ConnPin.bterm port.pname)) ∧
        CBTermRec.mk b.bname b.sigTy b.ioTy (some n) ∈ s2.bterms) ∧
    (∃ s3, connectLibPort s InstRef.top port n
          = some (s3, some (ConnPin.bterm port.pname)) ∧
      CBTermRec.mk port.pname sg io (some n) ∈ s3.bterms) ∧
    (∀ i t, s.citerms.find? (fun x => x.inst == i && x.mterm == port.pname) = some t →
      ∃ s4, connectPort s (InstRef.inst i) port n
            = some (s4, some (ConnPin.iterm i port.pname)) ∧
        CITermRec.mk t.inst t.mterm (some n) ∈ s4.citerms) := by
  refine ⟨?_, ?_, ?_, ?_⟩
  · intro hnone
    have hres : connectPort s InstRef.top port n
        = some ({ s with bterms := ⟨port.pname, sg, io, some n⟩ :: s.bterms },
          some (ConnPin.bterm port.pname)) := by
      simp [connectPort, hnone, hdir]
    exact ⟨_, hres, by simp⟩
  · intro b hb
    have hres : connectPort s InstRef.top port n
        = some ({ s with bterms := s.bterms.map (fun x =>
            if x.bname == port.pname then { x with net := some n } else x) },
          some (ConnPin.bterm port.pname)) := by
      simp [connectPort, hb]
    refine ⟨_, hres, ?_⟩
    have hmem := List.mem_of_find?_eq_some hb
    have hpred := List.find?_some hb
    simp only [beq_iff_eq] at hpred
    refine List.mem_map.mpr ⟨b, hmem, ?_⟩
    simp [hpred]
  · cases hb : s.bterms.find? (fun b => b.bname == port.pname) with
    | none =>
      have hres : connectLibPort s InstRef.top port n
          = some ({ s with bterms := ⟨port.pname, sg, io, some n⟩ :: s.bterms },
            some (ConnPin.bterm port.pname)) := by
        simp [connectLibPort, hb, hdir]
      exact ⟨_, hres, by simp⟩
    | some b =>
      have hres : connectLibPort s InstRef.top port n
          = some ({ s with bterms := s.bterms.map (fun x =>
              if x.bname == port.pname then
                { x with net := some n, sigTy := sg, ioTy := io }
              else x) },
            some (ConnPin.bterm port.pname)) := by
        simp [connectLibPort, hb, hdir]
      refine ⟨_, hres, ?_⟩
      have hmem := List.mem_of_find?_eq_some hb
      have hpred := List.find?_some hb
      simp only [beq_iff_eq] at hpred
      refine List.mem_map.mpr ⟨b, hmem, ?_⟩
      simp [hpred]
  · intro i t ht
    have hres : connectPort s (InstRef.inst i) port n
        = some ({ s with citerms := s.citerms.map (fun x =>
            if x.inst == i && x.mterm == port.pname then { x with net := some n } else x) },
          some (ConnPin.iterm i port.pname)) := by
      simp [connectPort, ht]
    refine ⟨_, hres, ?_⟩
    have hmem := List.mem_of_find?_eq_some ht
    have hpred := List.find?_some ht
    simp only [Bool.and_eq_true, beq_iff_eq] at hpred
    refine List.mem_map.mpr ⟨t, hmem, ?_⟩
    simp [hpred.1, hpred.2]

/-- C9 counterexample: reconnecting the existing bterm a (SIGNAL, INPUT)
through the Port* overload with a port whose direction is output leaves the
IO type INPUT, although the direction maps to (SIGNAL, OUTPUT); the
signal/IO pair is not set in the reuse branch. -/
theorem c9_counterexample :
    connectPort exConnState InstRef.top ⟨"a", PortDir.output⟩ 7
      = some (⟨[⟨"a", DbSigType.signal, DbIoType.input, some 7⟩], []⟩,
        some (ConnPin.bterm "a")) ∧
    staToDbDir PortDir.output = some (DbSigType.signal, DbIoType.output) ∧
    DbIoType.input ≠ DbIoType.output := by decide

/-- C9 witness: the create branch at top and the LibertyPort overload on
the example state, with an output-direction port named b. -/
theorem c9_connect_direction_witness :
    staToDbDir PortDir.output = some (DbSigType.signal, DbIoType.output) ∧
    (exConnState.bterms.find? (fun b => b.bname == "b") = none) ∧
    (∃ s2, connectPort exConnState InstRef.top ⟨"b", PortDir.output⟩ 7
          = some (s2, some (ConnPin.bterm "b")) ∧
      CBTermRec.mk "b" DbSigType.signal DbIoType.output (some 7) ∈ s2.bterms) ∧
    (∃ s3, connectLibPort exConnState InstRef.top ⟨"b", PortDir.output⟩ 7
          = some (s3, some (ConnPin.bterm "b")) ∧
      CBTermRec.mk "b" DbSigType.signal DbIoType.output (some 7) ∈ s3.bterms) :=
  ⟨rfl, by decide,
    (c9_connect_direction exConnState ⟨"b", PortDir.output⟩ 7
        DbSigType.signal DbIoType.output rfl).1 (by decide),
    (c9_connect_direction exConnState ⟨"b", PortDir.output⟩ 7
        DbSigType.signal DbIoType.output rfl).2.2.1⟩

/-- A find? over a list whose keys are distinct returns exactly the member
carrying the key. -/
theorem find?_key_nodup {α : Type} (key : α → Nat) (l : List α)
    (hnd : (l.map key).Nodup) (t : α) (ht : t ∈ l) :
    l.find? (fun x => key x == key t) = some t := by
  induction l with
  | nil => cases ht
  | cons a rest ih =>
    rw [List.map_cons, List.nodup_cons] at hnd
    rcases List.mem_cons.mp ht with rfl | ht2
    · rw [List.find?_cons_of_pos _ (by simp)]
    · have hka : key a ≠ key t := by
        intro hk
        exact hnd.1 (hk ▸ List.mem_map_of_mem key ht2)
      rw [List.find?_cons_of_neg _ (by simpa using hka)]
      exact ih hnd.2 ht2

/-- C7 (amended): supply pins are excluded where the pin iterators walk flat
terminals — the net pin iterator and the (non-top) instance pin iterator
only produce non-supply iterms — while supply nets stay identifiable through
isPower and isGround; the connectivity traversal itself does not filter
supply pins (see the counterexample). -/
theorem c7_supply_filter (D : Design) :
    (∀ r i, PinRef.iterm i ∈ D.netPins r →
      ∃ t, t ∈ D.iterms ∧ t.id = i ∧ t.sigTy.isSupply = false) ∧
    (∀ j i, PinRef.iterm i ∈ D.instPins (InstRef.inst j) →
      ∃ t, t ∈ D.iterms ∧ t.id = i ∧ t.sigTy.isSupply = false) ∧
    (∀ n t, D.findDNet n = some t →
      D.isPower n = (t.sigTy == DbSigType.power) ∧
      D.isGround n = (t.sigTy == DbSigType.ground)) := by
  refine ⟨?_, ?_, ?_⟩
  · intro r i hmem
    cases r with
    | flat n =>
      simp only [Design.netPins, Design.dnetITerms, List.mem_map, List.mem_filter,
        PinRef.iterm.injEq, Bool.not_eq_true'] at hmem
      obtain ⟨t, ⟨⟨htl, _⟩, hsup⟩, hti⟩ := hmem
      exact ⟨t, htl, hti, hsup⟩
    | mod n =>
      simp only [Design.netPins, Design.modnetITerms, List.mem_append, List.mem_map,
        List.mem_filter, PinRef.iterm.injEq, Bool.not_eq_true'] at hmem
      rcases hmem with ⟨t, ⟨⟨htl, _⟩, hsup⟩, hti⟩ | hmem
      · exact ⟨t, htl, hti, hsup⟩
      · by_cases hh : D.hierarchy <;> simp [hh] at hmem
  · intro j i hmem
    simp only [Design.instPins, Design.instITerms, List.mem_map, List.mem_filter,
      PinRef.iterm.injEq, Bool.not_eq_true'] at hmem
    obtain ⟨t, ⟨⟨htl, _⟩, hsup⟩, hti⟩ := hmem
    exact ⟨t, htl, hti, hsup⟩
  · intro n t hfind
    simp [Design.isPower, Design.isGround, hfind]

/-- C7 counterexample: on the supply design, the net pin iterator excludes
the power iterm 1, but the connectivity traversal visits it: generic pin
enumeration and traversal disagree, so supply pins are not excluded
everywhere pins are enumerated. -/
theorem c7_counterexample :
    exSupply.netPins (NetRef.flat 1) = [PinRef.iterm 2] ∧
    Design.vcp exSupply 2 (some (NetRef.flat 1)) []
      = some ([PinRef.iterm 1, PinRef.iterm 2], [some (NetRef.flat 1)]) ∧
    (exSupply.findITerm 1).map (fun t => t.sigTy) = some DbSigType.power := by decide

/-- C7 witness: the signal iterm 2 produced by the net pin iterator of net 1
is indeed a non-supply pin, and the signal net 1 is reported neither power
nor ground. -/
theorem c7_supply_filter_witness :
    PinRef.iterm 2 ∈ exSupply.netPins (NetRef.flat 1) ∧
    (∃ t, t ∈ exSupply.iterms ∧ t.id = 2 ∧ t.sigTy.isSupply = false) ∧
    exSupply.findDNet 1 = some ⟨1, DbSigType.signal⟩ ∧
    exSupply.isPower 1 = (DbSigType.signal == DbSigType.power) ∧
    exSupply.isGround 1 = (DbSigType.signal == DbSigType.ground) :=
  ⟨by decide,
    (c7_supply_filter exSupply).1 (NetRef.flat 1) 2 (by decide),
    rfl,
    ((c7_supply_filter exSupply).2.2 1 ⟨1, DbSigType.signal⟩ rfl).1,
    ((c7_supply_filter exSupply).2.2 1 ⟨1, DbSigType.signal⟩ rfl).2⟩

/-- C5 (amended): in a hierarchical design with distinct module-instance
ids whose master modules point back at their instantiations, every direct
child of a module instance that is itself a module instance round-trips
through parent back to the module instance; every flat-instance child
reports the top instance as its parent instead. -/
theorem c5_parent_child_roundtrip (D : Design) (hh : D.hierarchy = true)
    (hnodup : (D.modinsts.map (fun t => t.id)).Nodup)
    (hmaster : ∀ mi ∈ D.modinsts,
      (D.findModule mi.master).bind (fun md => md.modInst) = some mi.id)
    (m : Nat) (M : ModInstRec) (hM : D.findModInst m = some M) :
    ∀ c ∈ D.children (InstRef.modi m),
      (∀ i, c = InstRef.inst i → D.parentOf c = some InstRef.top) ∧
      (∀ k, c = InstRef.modi k → D.parentOf c = some (InstRef.modi m)) := by
  intro c hc
  have hMmem : M ∈ D.modinsts := List.mem_of_find?_eq_some hM
  have hMid : M.id = m := by
    have := List.find?_some hM
    simpa using this
  simp only [Design.children, hh, if_true, hM, List.mem_append, List.mem_map] at hc
  constructor
  · intro i hci
    subst hci
    rfl
  · intro k hck
    subst hck
    rcases hc with ⟨c0, _, hc0⟩ | ⟨c0, hc0mem, hc0⟩
    · cases hc0
    · cases hc0
      rw [Design.moduleModInsts, List.mem_filter] at hc0mem
      obtain ⟨hc0l, hc0p⟩ := hc0mem
      have hc0pm : c0.parentModule = M.master := by simpa using hc0p
      have hfindc0 : D.findModInst c0.id = some c0 := by
        rw [Design.findModInst]
        exact find?_key_nodup (fun t => t.id) D.modinsts hnodup c0 hc0l
      obtain ⟨md, hmd, hmdi⟩ := Option.bind_eq_some.mp (hmaster M hMmem)
      simp only [Design.parentOf, hfindc0, hc0pm, hmd, hmdi, hMid]

/-- C5 counterexample: flat instance 7 is a direct child of module instance
5 produced by the child iterator, but parent reports the top instance, not
module instance 5: the parent/child round-trip fails for flat-instance
children. -/
theorem c5_counterexample :
    InstRef.inst 7 ∈ exHier.children (InstRef.modi 5) ∧
    exHier.parentOf (InstRef.inst 7) = some InstRef.top ∧
    InstRef.top ≠ InstRef.modi 5 := by decide

/-- C5 witness: module instance 6 is a direct child of module instance 5
and round-trips through parent. -/
theorem c5_parent_child_roundtrip_witness :
    exHier.hierarchy = true ∧
    (exHier.modinsts.map (fun t => t.id)).Nodup ∧
    exHier.findModInst 5 = some ⟨5, 0, 10⟩ ∧
    InstRef.modi 6 ∈ exHier.children (InstRef.modi 5) ∧
    exHier.parentOf (InstRef.modi 6) = some (InstRef.modi 5) :=
  ⟨rfl, by decide, rfl, by decide,
    (c5_parent_child_roundtrip exHier rfl (by decide) (by decide) 5 ⟨5, 0, 10⟩ rfl
      (InstRef.modi 6) (by decide)).2 6 rfl⟩

/-- The port loop creates one port per mterm regardless of liberty
matching. -/
theorem makeCellLoop_ports_length (lc : Option LibCellRec) (l : List MTermRec) :
    (makeCellLoop lc l).1.length = l.length := by
  induction l with
  | nil => rfl
  | cons mt rest ih =>
    cases lc with
    | none => simpa [makeCellLoop] using ih
    | some c =>
      simp only [makeCellLoop]
      split
      · simpa using ih
      · split <;> simpa using ih

/-- Warned names come from the processed mterm names. -/
theorem makeCellLoop_warn_subset (lc : Option LibCellRec) (l : List MTermRec) :
    ∀ x ∈ (makeCellLoop lc l).2.2, x ∈ l.map (fun mt => mt.mtname) := by
  induction l with
  | nil => intro x hx; cases hx
  | cons mt rest ih =>
    intro x hx
    simp only [List.map_cons, List.mem_cons]
    cases lc with
    | none =>
      simp only [makeCellLoop] at hx
      exact Or.inr (ih x hx)
    | some c =>
      simp only [makeCellLoop] at hx
      split at hx
      · exact Or.inr (ih x hx)
      · split at hx
        · rcases List.mem_cons.mp hx with hx2 | hx2
          · exact Or.inl hx2
          · exact Or.inr (ih x hx2)
        · exact Or.inr (ih x hx)

/-- With no liberty cell the loop warns about nothing. -/
theorem makeCellLoop_warn_none (l : List MTermRec) :
    (makeCellLoop none l).2.2 = [] := by
  induction l with
  | nil => rfl
  | cons mt rest ih => simpa [makeCellLoop] using ih

/-- Membership in the warned names, against a found liberty cell, under
distinct port names. -/
theorem makeCellLoop_warn_mem (c : LibCellRec) (l : List MTermRec)
    (hnd : (l.map (fun mt => mt.mtname)).Nodup) (mt : MTermRec) (hmt : mt ∈ l) :
    mt.mtname ∈ (makeCellLoop (some c) l).2.2 ↔
      ((dbToStaDir mt.sigTy mt.ioTy).isPowerGround = false ∧
        mt.mtname ∉ c.lports ∧ mt.mtname ∉ c.pgports) := by
  induction l with
  | nil => cases hmt
  | cons a rest ih =>
    rw [List.map_cons, List.nodup_cons] at hnd
    rcases List.mem_cons.mp hmt with heq | hmt2
    · subst heq
      have hnotrest : mt.mtname ∉ (makeCellLoop (some c) rest).2.2 := by
        intro hx
        exact hnd.1 (makeCellLoop_warn_subset (some c) rest _ hx)
      simp only [makeCellLoop]
      split
      · rename_i hport
        simp only [List.contains, List.elem_iff] at hport
        constructor
        · intro hx; exact absurd hx hnotrest
        · rintro ⟨_, hl, _⟩; exact absurd hport hl
      · rename_i hport
        simp only [List.contains, List.elem_iff] at hport
        split
        · rename_i hcond
          rw [Bool.and_eq_true, Bool.not_eq_true', Bool.not_eq_true'] at hcond
          simp only [List.mem_cons]
          constructor
          · intro _
            refine ⟨hcond.1, fun hl => hport (by simpa using hl), ?_⟩
            intro hp
            have : c.pgports.contains mt.mtname = true := by simpa using hp
            rw [hcond.2] at this
            cases this
          · intro _
            exact Or.inl trivial
        · rename_i hcond
          rw [Bool.and_eq_true] at hcond
          constructor
          · intro hx; exact absurd hx hnotrest
          · rintro ⟨hdir, hl, hpg⟩
            exfalso
            apply hcond
            refine ⟨by simpa using hdir, ?_⟩
            simp only [Bool.not_eq_true']
            rw [← Bool.not_eq_true]
            intro hcon
            exact hpg (by simpa using hcon)
    · have hane : a.mtname ≠ mt.mtname := by
        intro hk
        exact hnd.1 (hk ▸ List.mem_map_of_mem (fun x => x.mtname) hmt2)
      have ihr := ih hnd.2 hmt2
      simp only [makeCellLoop]
      split
      · exact ihr
      · split
        · simp only [List.mem_cons]
          constructor
          · intro hx
            rcases hx with hx | hx
            · exact absurd hx.symm hane
            · exact ihr.mp hx
          · intro hx; exact Or.inr (ihr.mpr hx)
        · exact ihr

/-- C8: building a physical-library cell against the loaded timing library
warns about a port exactly when a same-named timing cell exists, the port
direction is not power/ground, and the timing cell has neither a same-named
liberty port nor a same-named pg-port; the build itself continues and still
creates every port. -/
theorem c8_makecell_warning (lib : List LibCellRec) (master : MasterRec)
    (hnd : (master.mterms.map (fun mt => mt.mtname)).Nodup)
    (mt : MTermRec) (hmt : mt ∈ master.mterms) :
    (mt.mtname ∈ (makeCell8 lib master).2.2 ↔
      ∃ c, findLibertyCell lib master.cname = some c ∧
        (dbToStaDir mt.sigTy mt.ioTy).isPowerGround = false ∧
        mt.mtname ∉ c.lports ∧ mt.mtname ∉ c.pgports) ∧
    (makeCell8 lib master).1.length = master.mterms.length := by
  constructor
  · unfold makeCell8
    cases hfc : findLibertyCell lib master.cname with
    | none =>
      rw [makeCellLoop_warn_none]
      simp
    | some c =>
      rw [makeCellLoop_warn_mem c master.mterms hnd mt hmt]
      constructor
      · intro hx; exact ⟨c, rfl, hx⟩
      · rintro ⟨c2, hc2, hx⟩
        cases hc2
        exact hx
  · exact makeCellLoop_ports_length _ _

/-- C8 witness: on the example master, port X (signal input, absent from
the liberty cell) is warned about while A, Z (matched) and VDD (power) are
not, and all four ports are created. -/
theorem c8_makecell_warning_witness :
    ((exMaster.mterms.map (fun mt => mt.mtname)).Nodup) ∧
    (⟨"X", DbSigType.signal, DbIoType.input⟩ : MTermRec) ∈ exMaster.mterms ∧
    ((("X" : String) ∈ (makeCell8 exLib exMaster).2.2 ↔
      ∃ c, findLibertyCell exLib exMaster.cname = some c ∧
        (dbToStaDir DbSigType.signal DbIoType.input).isPowerGround = false ∧
        ("X" : String) ∉ c.lports ∧ ("X" : String) ∉ c.pgports) ∧
     (makeCell8 exLib exMaster).1.length = exMaster.mterms.length) :=
  ⟨by decide, by decide,
    c8_makecell_warning exLib exMaster (by decide)
      ⟨"X", DbSigType.signal, DbIoType.input⟩ (by decide)⟩

/-- Module-net references on modbterms point at design nets when the design
is well formed. -/
theorem wfNets_modbterm (D : Design) (hwf : D.wfNetsB = true)
    (mb : ModBTermRec) (hmb : mb ∈ D.modbterms) (m : Nat) (hmn : mb.mnet = some m) :
    m ∈ D.modnets := by
  unfold Design.wfNetsB at hwf
  rw [Bool.and_eq_true] at hwf
  have h := (List.all_eq_true.mp hwf.2) mb hmb
  rw [hmn] at h
  simpa using h

/-- Module-net references on moditerms point at design nets when the design
is well formed. -/
theorem wfNets_moditerm (D : Design) (hwf : D.wfNetsB = true)
    (mt : ModITermRec) (hmt : mt ∈ D.moditerms) (m : Nat) (hmn : mt.mnet = some m) :
    m ∈ D.modnets := by
  unfold Design.wfNetsB at hwf
  rw [Bool.and_eq_true] at hwf
  have h := (List.all_eq_true.mp hwf.1) mt hmt
  rw [hmn] at h
  simpa using h

/-- Postcondition of the visit-below loop, given the postcondition of the
recursive traversal: the visited set only grows, every resolved below pin of
the processed moditerms is emitted with its net visited, and every newly
visited net had its expansion emitted and its step targets visited. -/
theorem vcpBelowAux_post (D : Design)
    (f : Option NetRef → List (Option NetRef) → Option (List PinRef × List (Option NetRef)))
    (hf : ∀ n v out vfin, f n v = some (out, vfin) → D.VcpPost v n out vfin) :
    ∀ (l : List ModITermRec) (v : List (Option NetRef)) out vfin,
      Design.vcpBelowAux D f l v = some (out, vfin) →
      v ⊆ vfin ∧
        (∀ mt ∈ l, ∀ mb, D.belowModBTerm mt = some mb →
          PinRef.modbterm mb.id ∈ out ∧ (mb.mnet.map NetRef.mod) ∈ vfin) ∧
        (∀ m ∈ vfin, m ∈ v ∨
          ((∀ p ∈ D.expandPins m, p ∈ out) ∧ (∀ t ∈ D.stepTargets m, t ∈ vfin))) := by
  intro l
  induction l with
  | nil =>
    intro v out vfin h
    simp only [Design.vcpBelowAux, Option.some.injEq, Prod.mk.injEq] at h
    obtain ⟨hout, hv⟩ := h
    subst hout
    subst hv
    exact ⟨List.Subset.refl _, by simp, fun m hm => Or.inl hm⟩
  | cons mt rest ih =>
    intro v out vfin h
    simp only [Design.vcpBelowAux] at h
    split at h
    · rename_i hbe
      obtain ⟨h1, h2, h3⟩ := ih v out vfin h
      refine ⟨h1, ?_, h3⟩
      intro mt2 hmt2 mb hmb
      rcases List.mem_cons.mp hmt2 with rfl | hmt2r
      · rw [hbe] at hmb; cases hmb
      · exact h2 mt2 hmt2r mb hmb
    · rename_i mb hbe
      split at h
      · simp at h
      · rename_i out1 v1 hf1
        split at h
        · simp at h
        · rename_i out2 v2 hr
          simp only [Option.some.injEq, Prod.mk.injEq] at h
          obtain ⟨hout, hv⟩ := h
          subst hout
          subst hv
          obtain ⟨hs1, hm1, hp1⟩ := hf _ _ _ _ hf1
          obtain ⟨hs2, h2, h3⟩ := ih v1 out2 _ hr
          refine ⟨hs1.trans hs2, ?_, ?_⟩
          · intro mt2 hmt2 mb2 hmb2
            rcases List.mem_cons.mp hmt2 with rfl | hmt2r
            · rw [hbe] at hmb2
              injection hmb2 with hmbe
              subst hmbe
              exact ⟨List.mem_cons_self _ _, hs2 hm1⟩
            · obtain ⟨hp, hk⟩ := h2 mt2 hmt2r mb2 hmb2
              exact ⟨List.mem_cons.mpr (Or.inr (List.mem_append.mpr (Or.inr hp))), hk⟩
          · intro m hm
            rcases h3 m hm with hmv1 | ⟨hpout, htv⟩
            · rcases hp1 m hmv1 with hmv | ⟨hpout1, htv1⟩
              · exact Or.inl hmv
              · refine Or.inr ⟨?_, fun t ht => hs2 (htv1 t ht)⟩
                intro p hp
                exact List.mem_cons.mpr (Or.inr (List.mem_append.mpr (Or.inl (hpout1 p hp))))
            · refine Or.inr ⟨?_, htv⟩
              intro p hp
              exact List.mem_cons.mpr (Or.inr (List.mem_append.mpr (Or.inr (hpout p hp))))

/-- Postcondition of the visit-above loop, symmetric to the below loop. -/
theorem vcpAboveAux_post (D : Design)
    (f : Option NetRef → List (Option NetRef) → Option (List PinRef × List (Option NetRef)))
    (hf : ∀ n v out vfin, f n v = some (out, vfin) → D.VcpPost v n out vfin) :
    ∀ (l : List ModBTermRec) (v : List (Option NetRef)) out vfin,
      Design.vcpAboveAux D f l v = some (out, vfin) →
      v ⊆ vfin ∧
        (∀ mb ∈ l, ∀ mi, D.aboveModITerm mb = some mi →
          PinRef.moditerm mi.id ∈ out ∧ (mi.mnet.map NetRef.mod) ∈ vfin) ∧
        (∀ m ∈ vfin, m ∈ v ∨
          ((∀ p ∈ D.expandPins m, p ∈ out) ∧ (∀ t ∈ D.stepTargets m, t ∈ vfin))) := by
  intro l
  induction l with
  | nil =>
    intro v out vfin h
    simp only [Design.vcpAboveAux, Option.some.injEq, Prod.mk.injEq] at h
    obtain ⟨hout, hv⟩ := h
    subst hout
    subst hv
    exact ⟨List.Subset.refl _, by simp, fun m hm => Or.inl hm⟩
  | cons mb rest ih =>
    intro v out vfin h
    simp only [Design.vcpAboveAux] at h
    split at h
    · rename_i hbe
      obtain ⟨h1, h2, h3⟩ := ih v out vfin h
      refine ⟨h1, ?_, h3⟩
      intro mb2 hmb2 mi hmi
      rcases List.mem_cons.mp hmb2 with rfl | hmb2r
      · rw [hbe] at hmi; cases hmi
      · exact h2 mb2 hmb2r mi hmi
    · rename_i mi hbe
      split at h
      · simp at h
      · rename_i out1 v1 hf1
        split at h
        · simp at h
        · rename_i out2 v2 hr
          simp only [Option.some.injEq, Prod.mk.injEq] at h
          obtain ⟨hout, hv⟩ := h
          subst hout
          subst hv
          obtain ⟨hs1, hm1, hp1⟩ := hf _ _ _ _ hf1
          obtain ⟨hs2, h2, h3⟩ := ih v1 out2 _ hr
          refine ⟨hs1.trans hs2, ?_, ?_⟩
          · intro mb2 hmb2 mi2 hmi2
            rcases List.mem_cons.mp hmb2 with rfl | hmb2r
            · rw [hbe] at hmi2
              injection hmi2 with hmie
              subst hmie
              exact ⟨List.mem_cons_self _ _, hs2 hm1⟩
            · obtain ⟨hp, hk⟩ := h2 mb2 hmb2r mi2 hmi2
              exact ⟨List.mem_cons.mpr (Or.inr (List.mem_append.mpr (Or.inr hp))), hk⟩
          · intro m hm
            rcases h3 m hm with hmv1 | ⟨hpout, htv⟩
            · rcases hp1 m hmv1 with hmv | ⟨hpout1, htv1⟩
              · exact Or.inl hmv
              · refine Or.inr ⟨?_, fun t ht => hs2 (htv1 t ht)⟩
                intro p hp
                exact List.mem_cons.mpr (Or.inr (List.mem_append.mpr (Or.inl (hpout1 p hp))))
            · refine Or.inr ⟨?_, htv⟩
              intro p hp
              exact List.mem_cons.mpr (Or.inr (List.mem_append.mpr (Or.inr (hpout p hp))))

/-- The fundamental postcondition of the traversal, by induction on fuel. -/
theorem vcp_post (D : Design) :
    ∀ fuel n visited out vfin,
      Design.vcp D fuel n visited = some (out, vfin) →
      D.VcpPost visited n out vfin := by
  intro fuel
  induction fuel with
  | zero =>
    intro n visited out vfin h
    simp [Design.vcp] at h
  | succ fuel ih =>
    intro n visited out vfin h
    simp only [Design.vcp] at h
    split at h
    · rename_i hv
      simp only [Option.some.injEq, Prod.mk.injEq] at h
      obtain ⟨hout, hvf⟩ := h
      subst hout
      subst hvf
      exact ⟨List.Subset.refl _, hv, fun m hm => Or.inl hm⟩
    · rename_i hv
      split at h
      · rename_i mn
        split at h
        · simp at h
        · rename_i outB v2 hB
          split at h
          · simp at h
          · rename_i outA v3 hA
            simp only [Option.some.injEq, Prod.mk.injEq] at h
            obtain ⟨hout, hvf⟩ := h
            subst hout
            subst hvf
            obtain ⟨hsB, hlB, h3B⟩ :=
              vcpBelowAux_post D (Design.vcp D fuel) (ih) _ _ _ _ hB
            obtain ⟨hsA, hlA, h3A⟩ :=
              vcpAboveAux_post D (Design.vcp D fuel) (ih) _ _ _ _ hA
            have hsub : visited ⊆ v3 :=
              (List.subset_cons_self _ _).trans (hsB.trans hsA)
            have hninv : (some (NetRef.mod mn)) ∈ v3 :=
              hsA (hsB (List.mem_cons_self _ _))
            refine ⟨hsub, hninv, ?_⟩
            intro m hm
            rcases h3A m hm with hmv2 | ⟨hpA, htA⟩
            · rcases h3B m hmv2 with hmv1 | ⟨hpB, htB⟩
              · rcases List.mem_cons.mp hmv1 with rfl | hmv
                · refine Or.inr ⟨?_, ?_⟩
                  · intro p hp
                    simp only [Design.expandPins, List.mem_append] at hp
                    rcases hp with (hp | hp) | hp
                    · exact List.mem_append.mpr (Or.inl (List.mem_append.mpr (Or.inl hp)))
                    · obtain ⟨mt, hmtl, hmbp⟩ := List.mem_filterMap.mp hp
                      obtain ⟨mb, hmb, hpe⟩ := Option.map_eq_some'.mp hmbp
                      subst hpe
                      exact List.mem_append.mpr (Or.inl (List.mem_append.mpr
                        (Or.inr (hlB mt hmtl mb hmb).1)))
                    · obtain ⟨mb, hmbl, hmip⟩ := List.mem_filterMap.mp hp
                      obtain ⟨mi, hmi, hpe⟩ := Option.map_eq_some'.mp hmip
                      subst hpe
                      exact List.mem_append.mpr (Or.inr (hlA mb hmbl mi hmi).1)
                  · intro t ht
                    simp only [Design.stepTargets, List.mem_append] at ht
                    rcases ht with ht | ht
                    · obtain ⟨mt, hmtl, hmbp⟩ := List.mem_filterMap.mp ht
                      obtain ⟨mb, hmb, hpe⟩ := Option.map_eq_some'.mp hmbp
                      subst hpe
                      exact hsA (hlB mt hmtl mb hmb).2
                    · obtain ⟨mb, hmbl, hmip⟩ := List.mem_filterMap.mp ht
                      obtain ⟨mi, hmi, hpe⟩ := Option.map_eq_some'.mp hmip
                      subst hpe
                      exact (hlA mb hmbl mi hmi).2
                · exact Or.inl hmv
              · refine Or.inr ⟨?_, fun t ht => hsA (htB t ht)⟩
                intro p hp
                exact List.mem_append.mpr (Or.inl (List.mem_append.mpr (Or.inr (hpB p hp))))
            · refine Or.inr ⟨?_, htA⟩
              intro p hp
              exact List.mem_append.mpr (Or.inr (hpA p hp))
      · rename_i dn
        simp only [Option.some.injEq, Prod.mk.injEq] at h
        obtain ⟨hout, hvf⟩ := h
        subst hout
        subst hvf
        refine ⟨List.subset_cons_self _ _, List.mem_cons_self _ _, ?_⟩
        intro m hm
        rcases List.mem_cons.mp hm with rfl | hm2
        · refine Or.inr ⟨?_, by simp [Design.stepTargets]⟩
          intro p hp
          simpa [Design.expandPins] using hp
        · exact Or.inl hm2
      · simp only [Option.some.injEq, Prod.mk.injEq] at h
        obtain ⟨hout, hvf⟩ := h
        subst hout
        subst hvf
        refine ⟨List.subset_cons_self _ _, List.mem_cons_self _ _, ?_⟩
        intro m hm
        rcases List.mem_cons.mp hm with rfl | hm2
        · exact Or.inr ⟨by simp [Design.expandPins], by simp [Design.stepTargets]⟩
        · exact Or.inl hm2

/-- Filtering out a larger visited set keeps fewer keys. -/
theorem filter_unvisited_mono (v w : List (Option NetRef)) (hvw : v ⊆ w) :
    ∀ l : List (Option NetRef),
      (l.filter (fun k => decide (k ∉ w))).length ≤
        (l.filter (fun k => decide (k ∉ v))).length := by
  intro l
  induction l with
  | nil => simp
  | cons a t iht =>
    rw [List.filter_cons, List.filter_cons]
    by_cases haw : a ∈ w
    · have h1 : decide (a ∉ w) = false := by simpa using haw
      rw [h1]
      by_cases hav : a ∈ v
      · have h2 : decide (a ∉ v) = false := by simpa using hav
        rw [h2]
        simpa using iht
      · have h2 : decide (a ∉ v) = true := by simpa using hav
        rw [h2]
        simp only [if_false, if_true, List.length_cons]
        exact Nat.le_succ_of_le iht
    · have hav : a ∉ v := fun hmem => haw (hvw hmem)
      have h1 : decide (a ∉ w) = true := by simpa using haw
      have h2 : decide (a ∉ v) = true := by simpa using hav
      rw [h1, h2]
      simpa using iht

/-- Growing the visited set keeps the unvisited count from rising. -/
theorem unvisitedCount_mono (D : Design) (v w : List (Option NetRef)) (hvw : v ⊆ w) :
    Design.unvisitedCount D w ≤ Design.unvisitedCount D v :=
  filter_unvisited_mono v w hvw D.allKeys

/-- Inserting a not-yet-visited key strictly lowers the unvisited count. -/
theorem unvisitedCount_lt (D : Design) (v : List (Option NetRef)) (a : Option NetRef)
    (hal : a ∈ D.allKeys) (hav : a ∉ v) :
    Design.unvisitedCount D (a :: v) < Design.unvisitedCount D v := by
  unfold Design.unvisitedCount
  have hgen : ∀ l : List (Option NetRef), a ∈ l →
      (l.filter (fun k => decide (k ∉ a :: v))).length <
        (l.filter (fun k => decide (k ∉ v))).length := by
    intro l hal2
    induction l with
    | nil => cases hal2
    | cons b t iht =>
      rw [List.filter_cons, List.filter_cons]
      by_cases hba : b = a
      · subst hba
        have h1 : decide (b ∉ b :: v) = false := by simp
        have h2 : decide (b ∉ v) = true := by simpa using hav
        rw [h1, h2]
        simp only [if_false, if_true, List.length_cons]
        exact Nat.lt_succ_of_le (filter_unvisited_mono v (b :: v) (List.subset_cons_self _ _) t)
      · have hat : a ∈ t := by
          rcases List.mem_cons.mp hal2 with hx | hx
          · exact absurd hx.symm hba
          · exact hx
        by_cases hbv : b ∈ v
        · have h1 : decide (b ∉ a :: v) = false := by
            simp [List.mem_cons.mpr (Or.inr hbv)]
          have h2 : decide (b ∉ v) = false := by simpa using hbv
          rw [h1, h2]
          simpa using iht hat
        · have h1 : decide (b ∉ a :: v) = true := by
            simp only [decide_eq_true_eq]
            intro hx
            rcases List.mem_cons.mp hx with hx2 | hx2
            · exact hba hx2
            · exact hbv hx2
          have h2 : decide (b ∉ v) = true := by simpa using hbv
          rw [h1, h2]
          simp only [if_true, List.length_cons]
          exact Nat.succ_lt_succ (iht hat)
  exact hgen D.allKeys hal

/-- With enough fuel the below loop succeeds: every recursive key is a
design key, and the visited set only grows. -/
theorem vcpBelowAux_isSome (D : Design) (hwf : D.wfNetsB = true)
    (f : Option NetRef → List (Option NetRef) → Option (List PinRef × List (Option NetRef)))
    (fuel : Nat)
    (hfpost : ∀ n v out vfin, f n v = some (out, vfin) → D.VcpPost v n out vfin)
    (hfsome : ∀ n v, n ∈ D.allKeys → Design.unvisitedCount D v < fuel → (f n v).isSome) :
    ∀ (l : List ModITermRec) (v : List (Option NetRef)),
      Design.unvisitedCount D v < fuel → (Design.vcpBelowAux D f l v).isSome := by
  intro l
  induction l with
  | nil =>
    intro v hv
    simp [Design.vcpBelowAux]
  | cons mt rest ih =>
    intro v hv
    cases hbe : D.belowModBTerm mt with
    | none =>
      simp only [Design.vcpBelowAux, hbe]
      exact ih v hv
    | some mb =>
      have hkey : (mb.mnet.map NetRef.mod) ∈ D.allKeys := by
        cases hmn : mb.mnet with
        | none => simp [Design.allKeys]
        | some m =>
          have hmb : mb ∈ D.modbterms := by
            unfold Design.belowModBTerm at hbe
            obtain ⟨mi, _, hfind⟩ := Option.bind_eq_some.mp hbe
            exact List.mem_of_find?_eq_some hfind
          have hmn2 : m ∈ D.modnets := wfNets_modbterm D hwf mb hmb m hmn
          simp only [Design.allKeys, Option.map_some', List.mem_cons, List.mem_append,
            List.mem_map]
          exact Or.inr (Or.inr ⟨m, hmn2, rfl⟩)
      have h1 := hfsome _ v hkey hv
      obtain ⟨r1, hf1⟩ := Option.isSome_iff_exists.mp h1
      obtain ⟨out1, v1⟩ := r1
      have hs1 : v ⊆ v1 := (hfpost _ _ _ _ hf1).1
      have hv1 : Design.unvisitedCount D v1 < fuel :=
        Nat.lt_of_le_of_lt (unvisitedCount_mono D v v1 hs1) hv
      have h2 := ih v1 hv1
      obtain ⟨r2, hf2⟩ := Option.isSome_iff_exists.mp h2
      obtain ⟨out2, v2⟩ := r2
      simp [Design.vcpBelowAux, hbe, hf1, hf2]

/-- With enough fuel the above loop succeeds. -/
theorem vcpAboveAux_isSome (D : Design) (hwf : D.wfNetsB = true)
    (f : Option NetRef → List (Option NetRef) → Option (List PinRef × List (Option NetRef)))
    (fuel : Nat)
    (hfpost : ∀ n v out vfin, f n v = some (out, vfin) → D.VcpPost v n out vfin)
    (hfsome : ∀ n v, n ∈ D.allKeys → Design.unvisitedCount D v < fuel → (f n v).isSome) :
    ∀ (l : List ModBTermRec) (v : List (Option NetRef)),
      Design.unvisitedCount D v < fuel → (Design.vcpAboveAux D f l v).isSome := by
  intro l
  induction l with
  | nil =>
    intro v hv
    simp [Design.vcpAboveAux]
  | cons mb rest ih =>
    intro v hv
    cases hbe : D.aboveModITerm mb with
    | none =>
      simp only [Design.vcpAboveAux, hbe]
      exact ih v hv
    | some mi =>
      have hkey : (mi.mnet.map NetRef.mod) ∈ D.allKeys := by
        cases hmn : mi.mnet with
        | none => simp [Design.allKeys]
        | some m =>
          have hmi : mi ∈ D.moditerms := by
            unfold Design.aboveModITerm at hbe
            obtain ⟨md, _, hrest⟩ := Option.bind_eq_some.mp hbe
            obtain ⟨k, _, hfind⟩ := Option.bind_eq_some.mp hrest
            exact List.mem_of_find?_eq_some hfind
          have hmn2 : m ∈ D.modnets := wfNets_moditerm D hwf mi hmi m hmn
          simp only [Design.allKeys, Option.map_some', List.mem_cons, List.mem_append,
            List.mem_map]
          exact Or.inr (Or.inr ⟨m, hmn2, rfl⟩)
      have h1 := hfsome _ v hkey hv
      obtain ⟨r1, hf1⟩ := Option.isSome_iff_exists.mp h1
      obtain ⟨out1, v1⟩ := r1
      have hs1 : v ⊆ v1 := (hfpost _ _ _ _ hf1).1
      have hv1 : Design.unvisitedCount D v1 < fuel :=
        Nat.lt_of_le_of_lt (unvisitedCount_mono D v v1 hs1) hv
      have h2 := ih v1 hv1
      obtain ⟨r2, hf2⟩ := Option.isSome_iff_exists.mp h2
      obtain ⟨out2, v2⟩ := r2
      simp [Design.vcpAboveAux, hbe, hf1, hf2]

/-- Termination with an explicit bound: the traversal succeeds once the fuel
exceeds the number of not-yet-visited keys, because every call either
returns at once or permanently consumes one key. -/
theorem vcp_isSome (D : Design) (hwf : D.wfNetsB = true) :
    ∀ (fuel : Nat) (n : Option NetRef) (v : List (Option NetRef)),
      n ∈ D.allKeys → Design.unvisitedCount D v < fuel →
      (Design.vcp D fuel n v).isSome := by
  intro fuel
  induction fuel with
  | zero =>
    intro n v hn hcount
    exact absurd hcount (Nat.not_lt_zero _)
  | succ fuel ih =>
    intro n v hn hcount
    simp only [Design.vcp]
    by_cases hv : n ∈ v
    · rw [if_pos hv]
      rfl
    · rw [if_neg hv]
      have hcount1 : Design.unvisitedCount D (n :: v) < fuel := by
        have hlt := unvisitedCount_lt D v n hn hv
        omega
      cases n with
      | none => rfl
      | some r =>
        cases r with
        | flat dn => rfl
        | mod mn =>
          have hB := vcpBelowAux_isSome D hwf (Design.vcp D fuel) fuel
            (fun n2 v2 out2 vfin2 h2 => vcp_post D fuel n2 v2 out2 vfin2 h2)
            (fun n2 v2 hn2 hc2 => ih n2 v2 hn2 hc2)
            (D.modnetModITerms mn) (some (NetRef.mod mn) :: v) hcount1
          obtain ⟨rB, hBe⟩ := Option.isSome_iff_exists.mp hB
          obtain ⟨outB, v2⟩ := rB
          have hs : (some (NetRef.mod mn) :: v) ⊆ v2 :=
            (vcpBelowAux_post D (Design.vcp D fuel)
              (fun n2 v3 out2 vfin2 h2 => vcp_post D fuel n2 v3 out2 vfin2 h2)
              _ _ _ _ hBe).1
          have hc2 : Design.unvisitedCount D v2 < fuel :=
            Nat.lt_of_le_of_lt (unvisitedCount_mono D _ _ hs) hcount1
          have hA := vcpAboveAux_isSome D hwf (Design.vcp D fuel) fuel
            (fun n2 v3 out2 vfin2 h2 => vcp_post D fuel n2 v3 out2 vfin2 h2)
            (fun n2 v3 hn2 hc3 => ih n2 v3 hn2 hc3)
            (D.modnetModBTerms mn) v2 hc2
          obtain ⟨rA, hAe⟩ := Option.isSome_iff_exists.mp hA
          obtain ⟨outA, v3⟩ := rA
          simp [hBe, hAe]

/-- C1 (amended): for every net of a well-formed design, the guarded
traversal terminates (fuel one past the key count suffices) and visits every
transitively connected pin at least once: every net reachable through the
below/above steps is expanded, and all of its pins — direct terminals and
resolved boundary pins — appear in the output. Pins sitting on a hierarchy
boundary are visited once per adjoining net, so a pin can appear more than
once (see the counterexample); the visited-nets guard bounds the work and
guarantees termination, not pin uniqueness. -/
theorem c1_traversal_complete (D : Design) (hwf : D.wfNetsB = true)
    (n : Option NetRef) (hn : n ∈ D.allKeys) :
    ∃ out vfin,
      Design.vcp D (D.allKeys.length + 1) n [] = some (out, vfin) ∧
      ∀ m, Relation.ReflTransGen (Design.stepRel D) n m →
        m ∈ vfin ∧ ∀ p ∈ D.expandPins m, p ∈ out := by
  have hcount : Design.unvisitedCount D ([] : List (Option NetRef)) < D.allKeys.length + 1 := by
    unfold Design.unvisitedCount
    have hle := List.length_filter_le (fun k => decide (k ∉ ([] : List (Option NetRef)))) D.allKeys
    omega
  have hsome := vcp_isSome D hwf (D.allKeys.length + 1) n [] hn hcount
  obtain ⟨r, heq⟩ := Option.isSome_iff_exists.mp hsome
  obtain ⟨out, vfin⟩ := r
  obtain ⟨hsub, hmem, hthird⟩ := vcp_post D _ _ _ _ _ heq
  refine ⟨out, vfin, heq, ?_⟩
  have hstep : ∀ m ∈ vfin,
      (∀ p ∈ D.expandPins m, p ∈ out) ∧ (∀ t ∈ D.stepTargets m, t ∈ vfin) := by
    intro m hm
    rcases hthird m hm with hx | hx
    · cases hx
    · exact hx
  intro m hrtg
  induction hrtg with
  | refl => exact ⟨hmem, (hstep n hmem).1⟩
  | tail hr hs ihr =>
    rename_i b c
    obtain ⟨hbv, _⟩ := ihr
    have hcv : c ∈ vfin := (hstep b hbv).2 c hs
    exact ⟨hcv, (hstep c hcv).1⟩

/-- C1 counterexample: on the two-level design, traversing module net 100
visits moditerm 1 twice and modbterm 2 twice — once while expanding the
parent net 100 and once while expanding the child net 200 — so the
traversal does not visit each connected pin exactly once. -/
theorem c1_counterexample :
    Design.vcp exHier 4 (some (NetRef.mod 100)) []
      = some ([PinRef.moditerm 1, PinRef.modbterm 2, PinRef.iterm 3,
               PinRef.modbterm 2, PinRef.moditerm 1],
              [some (NetRef.mod 200), some (NetRef.mod 100)]) ∧
    [PinRef.moditerm 1, PinRef.modbterm 2, PinRef.iterm 3,
      PinRef.modbterm 2, PinRef.moditerm 1].count (PinRef.moditerm 1) = 2 ∧
    [PinRef.moditerm 1, PinRef.modbterm 2, PinRef.iterm 3,
      PinRef.modbterm 2, PinRef.moditerm 1].count (PinRef.modbterm 2) = 2 := by
  refine ⟨by decide, by decide, by decide⟩

/-- C1 witness: the completeness and termination theorem applied to module
net 100 of the two-level design. -/
theorem c1_traversal_complete_witness :
    exHier.wfNetsB = true ∧
    (some (NetRef.mod 100)) ∈ exHier.allKeys ∧
    (∃ out vfin,
      Design.vcp exHier (exHier.allKeys.length + 1) (some (NetRef.mod 100)) []
        = some (out, vfin) ∧
      ∀ m, Relation.ReflTransGen (Design.stepRel exHier) (some (NetRef.mod 100)) m →
        m ∈ vfin ∧ ∀ p ∈ Design.expandPins exHier m, p ∈ out) :=
  ⟨by decide, by decide,
    c1_traversal_complete exHier (by decide) (some (NetRef.mod 100)) (by decide)⟩

/-- Filtering away elements that cannot satisfy the search predicate leaves
the first match unchanged. -/
theorem find?_filter_of_imp {α : Type} (l : List α) (g pred : α → Bool)
    (h : ∀ e, pred e = true → g e = true) :
    (l.filter g).find? pred = l.find? pred := by
  induction l with
  | nil => rfl
  | cons a t ih =>
    by_cases hp : pred a = true
    · have hg := h a hp
      rw [List.filter_cons, if_pos hg, List.find?_cons_of_pos _ hp,
        List.find?_cons_of_pos _ hp]
    · have hpf : ¬pred a = true := hp
      rw [List.filter_cons]
      by_cases hg : g a = true
      · rw [if_pos hg, List.find?_cons_of_neg _ hpf, List.find?_cons_of_neg _ hpf]
        exact ih
      · rw [if_neg hg, List.find?_cons_of_neg _ hpf]
        exact ih

/-- In a pair list with distinct keys, two members with the same key are the
same pair. -/
theorem key_unique (l : List (Nat × Nat)) (hnd : (l.map Prod.fst).Nodup)
    (a b1 b2 : Nat) (h1 : (a, b1) ∈ l) (h2 : (a, b2) ∈ l) : b1 = b2 := by
  induction l with
  | nil => cases h1
  | cons e t ih =>
    rw [List.map_cons, List.nodup_cons] at hnd
    rcases List.mem_cons.mp h1 with he1 | ht1
    · rcases List.mem_cons.mp h2 with he2 | ht2
      · have hcomb : ((a, b1) : Nat × Nat) = (a, b2) := he1.trans he2.symm
        injection hcomb with h1a h1b
      · exfalso
        apply hnd.1
        have hea : e.1 = a := by rw [← he1]
        rw [hea]
        exact List.mem_map_of_mem Prod.fst ht2
    · rcases List.mem_cons.mp h2 with he2 | ht2
      · exfalso
        apply hnd.1
        have hea : e.1 = a := by rw [← he2]
        rw [hea]
        exact List.mem_map_of_mem Prod.fst ht1
      · exact ih hnd.2 ht1 ht2

/-- Under distinct connection keys, connOf is exactly membership in the
connection list. -/
theorem connOf_iff_mem (s : DrvState) (hwf : DrvWf s) (q m : Nat) :
    connOf s q = some m ↔ (q, m) ∈ s.conn := by
  constructor
  · intro h
    unfold connOf at h
    cases hf : s.conn.find? (fun e => e.1 == q) with
    | none => rw [hf] at h; cases h
    | some e =>
      rw [hf] at h
      simp only [Option.map_some', Option.some.injEq] at h
      have hkey : e.1 = q := by simpa using List.find?_some hf
      have hmem := List.mem_of_find?_eq_some hf
      have : e = (q, m) := by
        cases e
        simp only [Prod.mk.injEq]
        exact ⟨hkey, h⟩
      rw [← this]
      exact hmem
  · intro hmem
    have hfind : s.conn.find? (fun e => e.1 == q) = some (q, m) :=
      find?_key_nodup (fun e => e.1) s.conn hwf (q, m) hmem
    unfold connOf
    rw [hfind]
    rfl

/-- Under distinct pin keys, the driver lookup agrees with the recorded
flag. -/
theorem isDriverPin_of_mem (Dd : DrvDesign)
    (hnd : (Dd.pins.map (fun e => e.1)).Nodup)
    (pr : Nat × Bool) (hpr : pr ∈ Dd.pins) : isDriverPin Dd pr.1 = pr.2 := by
  have hfind : Dd.pins.find? (fun e => e.1 == pr.1) = some pr :=
    find?_key_nodup (fun e => e.1) Dd.pins hnd pr hpr
  unfold isDriverPin
  rw [hfind]
  rfl

/-- Setting the connection of pin p to net n: p resolves to n, everything
else is unchanged. -/
theorem connOf_set (s : DrvState) (p n q : Nat) :
    connOf { s with conn := (p, n) :: s.conn.filter (fun e => e.1 != p) } q
      = if q = p then some n else connOf s q := by
  unfold connOf
  by_cases hq : q = p
  · subst hq
    rw [List.find?_cons_of_pos _ (by simp), if_pos rfl]
    rfl
  · rw [if_neg hq, List.find?_cons_of_neg _ (by simp [Ne.symm hq])]
    rw [find?_filter_of_imp]
    intro e he
    simp only [beq_iff_eq] at he
    simp [he, hq]

/-- Erasing the connection of pin p: p resolves to nothing, everything else
is unchanged. -/
theorem connOf_erase (s : DrvState) (p q : Nat) :
    connOf { s with conn := s.conn.filter (fun e => e.1 != p) } q
      = if q = p then none else connOf s q := by
  by_cases hq : q = p
  · rw [if_pos hq]
    unfold connOf
    rw [List.find?_eq_none.mpr]
    · rfl
    · intro x hx
      have hxp := List.of_mem_filter hx
      simp only [bne_iff_ne, ne_eq] at hxp
      simp [hq, hxp]
  · rw [if_neg hq]
    unfold connOf
    rw [find?_filter_of_imp]
    intro e he
    simp only [beq_iff_eq] at he
    simp [he, hq]

/-- Dropping every connection into net n: pins that resolved to n resolve to
nothing, everything else is unchanged. -/
theorem connOf_filter_net (s : DrvState) (hwf : DrvWf s) (n q : Nat) :
    connOf { s with conn := s.conn.filter (fun e => e.2 != n) } q
      = if connOf s q = some n then none else connOf s q := by
  have hwf2 : DrvWf { s with conn := s.conn.filter (fun e => e.2 != n) } := by
    unfold DrvWf
    exact List.Nodup.sublist (List.Sublist.map _ (List.filter_sublist _)) hwf
  cases hq : connOf s q with
  | none =>
    have hfn : s.conn.find? (fun e => e.1 == q) = none := by
      unfold connOf at hq
      cases hf : s.conn.find? (fun e => e.1 == q) with
      | none => rfl
      | some e => rw [hf] at hq; cases hq
    have : ∀ x ∈ s.conn, ¬(x.1 == q) = true := List.find?_eq_none.mp hfn
    have hres : connOf { s with conn := s.conn.filter (fun e => e.2 != n) } q = none := by
      unfold connOf
      rw [List.find?_eq_none.mpr]
      · rfl
      · intro x hx
        exact this x (List.mem_of_mem_filter hx)
    rw [hres]
    split <;> rfl
  | some m =>
    have hmem := (connOf_iff_mem s hwf q m).mp hq
    by_cases hmn : m = n
    · subst hmn
      rw [if_pos rfl]
      cases hl : connOf { s with conn := s.conn.filter (fun e => e.2 != m) } q with
      | none => rfl
      | some m2 =>
        exfalso
        have hmem2 := (connOf_iff_mem _ hwf2 q m2).mp hl
        have hm2 : (q, m2) ∈ s.conn := List.mem_of_mem_filter hmem2
        have hne : m2 ≠ m := by
          have := List.of_mem_filter hmem2
          simpa using this
        exact hne (key_unique s.conn hwf q m2 m hm2 hmem)
    · rw [if_neg (by simp [hmn])]
      apply (connOf_iff_mem _ hwf2 q m).mpr
      apply List.mem_filter.mpr
      exact ⟨hmem, by simpa using hmn⟩

/-- The disconnect hook does not touch the connection list. -/
theorem disconnectPinBefore_conn (Dd : DrvDesign) (s : DrvState) (p : Nat) :
    (disconnectPinBefore Dd s p).conn = s.conn := by
  unfold disconnectPinBefore
  cases hc : connOf s p with
  | none => rfl
  | some n =>
    by_cases hd : isDriverPin Dd p = true <;> simp [hd]

/-- The disconnect hook does not touch the net list. -/
theorem disconnectPinBefore_nets (Dd : DrvDesign) (s : DrvState) (p : Nat) :
    (disconnectPinBefore Dd s p).nets = s.nets := by
  unfold disconnectPinBefore
  cases hc : connOf s p with
  | none => rfl
  | some n =>
    by_cases hd : isDriverPin Dd p = true <;> simp [hd]

/-- The connect hook does not touch the connection list. -/
theorem connectPinAfter_conn (Dd : DrvDesign) (s : DrvState) (p : Nat) :
    (connectPinAfter Dd s p).conn = s.conn := by
  unfold connectPinAfter
  by_cases hd : isDriverPin Dd p = true
  · cases hc : connOf s p <;> simp [hd, hc]
  · simp [hd]

/-- The connect hook does not touch the net list. -/
theorem connectPinAfter_nets (Dd : DrvDesign) (s : DrvState) (p : Nat) :
    (connectPinAfter Dd s p).nets = s.nets := by
  unfold connectPinAfter
  by_cases hd : isDriverPin Dd p = true
  · cases hc : connOf s p <;> simp [hd, hc]
  · simp [hd]

/-- Case description of the disconnect hook's index update. -/
theorem disconnectPinBefore_drvr (Dd : DrvDesign) (s : DrvState) (p : Nat) :
    (isDriverPin Dd p = true ∧ ∃ n, connOf s p = some n ∧
      (disconnectPinBefore Dd s p).drvr
        = s.drvr.map (fun e => if e.1 == n then (e.1, e.2.filter (fun q => q != p)) else e))
    ∨ ((isDriverPin Dd p = false ∨ connOf s p = none) ∧
        (disconnectPinBefore Dd s p).drvr = s.drvr) := by
  unfold disconnectPinBefore
  cases hc : connOf s p with
  | none => exact Or.inr ⟨Or.inr rfl, rfl⟩
  | some n =>
    by_cases hd : isDriverPin Dd p = true
    · exact Or.inl ⟨hd, n, rfl, by simp [hd]⟩
    · refine Or.inr ⟨Or.inl (by simpa using hd), by simp [hd]⟩

/-- Case description of the connect hook's index update. -/
theorem connectPinAfter_drvr (Dd : DrvDesign) (s : DrvState) (p : Nat) :
    (isDriverPin Dd p = true ∧ ∃ n, connOf s p = some n ∧
      (connectPinAfter Dd s p).drvr
        = s.drvr.map (fun e => if e.1 == n then (e.1, p :: e.2) else e))
    ∨ ((isDriverPin Dd p = false ∨ connOf s p = none) ∧
        (connectPinAfter Dd s p).drvr = s.drvr) := by
  unfold connectPinAfter
  by_cases hd : isDriverPin Dd p = true
  · cases hc : connOf s p with
    | none => exact Or.inr ⟨Or.inr rfl, by simp [hd, hc]⟩
    | some n => exact Or.inl ⟨hd, n, rfl, by simp [hd, hc]⟩
  · refine Or.inr ⟨Or.inl (by simpa using hd), by simp [hd]⟩

/-- States with the same connection list resolve pins identically. -/
theorem connOf_congr (s t : DrvState) (h : s.conn = t.conn) (q : Nat) :
    connOf s q = connOf t q := by
  unfold connOf
  rw [h]

/-- makeNet preserves the driver-index invariant: it only adds a fresh net
and touches neither connections nor the index. -/
theorem drv_inv_makeNet (Dd : DrvDesign) (s : DrvState) (hinv : DrvInv Dd s) (n : Nat) :
    DrvInv Dd (applyDrvOp Dd s (DrvOp.makeNet n)) := by
  by_cases hg : s.nets.contains n = true
  · have hmem : n ∈ s.nets := by simpa using hg
    have hstate : applyDrvOp Dd s (DrvOp.makeNet n) = s := by
      simp [applyDrvOp, hmem]
    rw [hstate]
    exact hinv
  · have hmem : n ∉ s.nets := by simpa using hg
    have hstate : applyDrvOp Dd s (DrvOp.makeNet n) = { s with nets := n :: s.nets } := by
      simp [applyDrvOp, hmem]
    rw [hstate]
    intro e he
    obtain ⟨h1, h2, h3⟩ := hinv e he
    exact ⟨List.mem_cons.mpr (Or.inr h1), h2, h3⟩

/-- deleteNet preserves the driver-index invariant: the net's entry is
removed together with the net and its connections, and the surviving
entries keep describing the surviving nets exactly. -/
theorem drv_inv_deleteNet (Dd : DrvDesign) (s : DrvState) (hwf : DrvWf s)
    (hinv : DrvInv Dd s) (n : Nat) :
    DrvInv Dd (applyDrvOp Dd s (DrvOp.deleteNet n)) := by
  have hconn2 : (applyDrvOp Dd s (DrvOp.deleteNet n)).conn
      = s.conn.filter (fun e => e.2 != n) := by
    simp [applyDrvOp, deleteNetBefore]
  have hnets2 : (applyDrvOp Dd s (DrvOp.deleteNet n)).nets
      = s.nets.filter (fun m => m != n) := by
    simp [applyDrvOp, deleteNetBefore]
  have hdrvr2 : (applyDrvOp Dd s (DrvOp.deleteNet n)).drvr
      = s.drvr.filter (fun e => e.1 != n) := by
    simp [applyDrvOp, deleteNetBefore]
  have hco : ∀ q, connOf (applyDrvOp Dd s (DrvOp.deleteNet n)) q
      = if connOf s q = some n then none else connOf s q := by
    intro q
    rw [connOf_congr _ ({ s with conn := s.conn.filter (fun e => e.2 != n) }) hconn2 q]
    exact connOf_filter_net s hwf n q
  intro e he
  rw [hdrvr2] at he
  have hef := List.of_mem_filter he
  have hel := List.mem_of_mem_filter he
  obtain ⟨h1, h2, h3⟩ := hinv e hel
  have hen : e.1 ≠ n := by simpa using hef
  refine ⟨?_, ?_, ?_⟩
  · rw [hnets2]
    exact List.mem_filter.mpr ⟨h1, by simpa using hen⟩
  · intro q hq
    obtain ⟨hc, hdv⟩ := h2 q hq
    refine ⟨?_, hdv⟩
    rw [hco q, hc]
    rw [if_neg (by simpa using hen)]
  · intro pr hpr hdrv hcn
    rw [hco pr.1] at hcn
    by_cases hcs : connOf s pr.1 = some n
    · rw [if_pos hcs] at hcn
      cases hcn
    · rw [if_neg hcs] at hcn
      exact h3 pr hpr hdrv hcn

/-- disconnect preserves the driver-index invariant: a connected driver pin
is erased from its net's entry before the connection is dropped. -/
theorem drv_inv_disconnect (Dd : DrvDesign) (s : DrvState) (_hwf : DrvWf s)
    (hinv : DrvInv Dd s) (p : Nat) :
    DrvInv Dd (applyDrvOp Dd s (DrvOp.disconnect p)) := by
  have hconn2 : (applyDrvOp Dd s (DrvOp.disconnect p)).conn
      = s.conn.filter (fun e => e.1 != p) := by
    simp only [applyDrvOp]
    rw [disconnectPinBefore_conn]
  have hnets2 : (applyDrvOp Dd s (DrvOp.disconnect p)).nets = s.nets := by
    simp only [applyDrvOp]
    rw [disconnectPinBefore_nets]
  have hdrvr2 : (applyDrvOp Dd s (DrvOp.disconnect p)).drvr
      = (disconnectPinBefore Dd s p).drvr := by
    simp only [applyDrvOp]
  have hco : ∀ q, connOf (applyDrvOp Dd s (DrvOp.disconnect p)) q
      = if q = p then none else connOf s q := by
    intro q
    rw [connOf_congr _ ({ s with conn := s.conn.filter (fun e => e.1 != p) }) hconn2 q]
    exact connOf_erase s p q
  intro e3 he3
  rw [hdrvr2] at he3
  rcases disconnectPinBefore_drvr Dd s p with ⟨hdp, m, hcm, hd1⟩ | ⟨hdp, hd1⟩
  · rw [hd1] at he3
    obtain ⟨e, hel, hee⟩ := List.mem_map.mp he3
    obtain ⟨h1, h2, h3⟩ := hinv e hel
    by_cases hem : (e.1 == m) = true
    · rw [if_pos hem] at hee
      refine ⟨?_, ?_, ?_⟩
      · rw [hnets2, ← hee]
        exact h1
      · intro q hq
        rw [← hee] at hq
        simp only at hq
        have hqf := List.of_mem_filter hq
        have hql := List.mem_of_mem_filter hq
        obtain ⟨hc, hdv⟩ := h2 q hql
        have hqp : q ≠ p := by simpa using hqf
        refine ⟨?_, hdv⟩
        rw [← hee]
        simp only
        rw [hco q, if_neg hqp, hc]
      · intro pr hpr hdrv hcn
        rw [← hee] at hcn
        simp only at hcn
        rw [hco pr.1] at hcn
        by_cases hprp : pr.1 = p
        · rw [if_pos hprp] at hcn
          cases hcn
        · rw [if_neg hprp] at hcn
          have hin := h3 pr hpr hdrv hcn
          rw [← hee]
          simp only
          exact List.mem_filter.mpr ⟨hin, by simpa using hprp⟩
    · rw [if_neg hem] at hee
      subst hee
      refine ⟨?_, ?_, ?_⟩
      · rw [hnets2]
        exact h1
      · intro q hq
        obtain ⟨hc, hdv⟩ := h2 q hq
        have hqp : q ≠ p := by
          intro hqe
          subst hqe
          rw [hcm] at hc
          injection hc with hx
          exact hem (beq_iff_eq.mpr hx.symm)
        refine ⟨?_, hdv⟩
        rw [hco q, if_neg hqp, hc]
      · intro pr hpr hdrv hcn
        rw [hco pr.1] at hcn
        by_cases hprp : pr.1 = p
        · rw [if_pos hprp] at hcn
          cases hcn
        · rw [if_neg hprp] at hcn
          exact h3 pr hpr hdrv hcn
  · rw [hd1] at he3
    obtain ⟨h1, h2, h3⟩ := hinv e3 he3
    refine ⟨?_, ?_, ?_⟩
    · rw [hnets2]
      exact h1
    · intro q hq
      obtain ⟨hc, hdv⟩ := h2 q hq
      have hqp : q ≠ p := by
        intro hqe
        subst hqe
        rcases hdp with hdp | hdp
        · rw [hdv] at hdp
          cases hdp
        · rw [hc] at hdp
          cases hdp
      refine ⟨?_, hdv⟩
      rw [hco q, if_neg hqp, hc]
    · intro pr hpr hdrv hcn
      rw [hco pr.1] at hcn
      by_cases hprp : pr.1 = p
      · rw [if_pos hprp] at hcn
        cases hcn
      · rw [if_neg hprp] at hcn
        exact h3 pr hpr hdrv hcn

/-- connect preserves the driver-index invariant: the database reconnect
fires the disconnect hook for the previous net, rewires the pin, and the
connect hook inserts a driver pin into the (existing) entry of its new
net. -/
theorem drv_inv_connect (Dd : DrvDesign) (hnd : (Dd.pins.map (fun e => e.1)).Nodup)
    (s : DrvState) (hinv : DrvInv Dd s) (p n : Nat) :
    DrvInv Dd (applyDrvOp Dd s (DrvOp.connect p n)) := by
  by_cases hg : (hasPin Dd p && s.nets.contains n) = true
  · obtain ⟨s1, hs1⟩ : ∃ t, disconnectPinBefore Dd s p = t := ⟨_, rfl⟩
    have hs1conn : s1.conn = s.conn := by
      rw [← hs1]
      exact disconnectPinBefore_conn Dd s p
    have hs1nets : s1.nets = s.nets := by
      rw [← hs1]
      exact disconnectPinBefore_nets Dd s p
    obtain ⟨s2, hs2⟩ :
        ∃ t : DrvState,
          ({ s1 with conn := (p, n) :: s1.conn.filter (fun e => e.1 != p) } : DrvState) = t :=
      ⟨_, rfl⟩
    have hs2conn : s2.conn = (p, n) :: s.conn.filter (fun e => e.1 != p) := by
      rw [← hs2]
      show (p, n) :: s1.conn.filter (fun e => e.1 != p)
        = (p, n) :: s.conn.filter (fun e => e.1 != p)
      rw [hs1conn]
    have hs2nets : s2.nets = s.nets := by
      rw [← hs2]
      show s1.nets = s.nets
      exact hs1nets
    have hs2drvr : s2.drvr = s1.drvr := by
      rw [← hs2]
    obtain ⟨s3, hs3⟩ : ∃ t, connectPinAfter Dd s2 p = t := ⟨_, rfl⟩
    have hstate : applyDrvOp Dd s (DrvOp.connect p n) = s3 := by
      simp only [applyDrvOp]
      rw [if_pos hg, hs1, hs2, hs3]
    rw [hstate]
    have hco2 : ∀ q, connOf s2 q = if q = p then some n else connOf s q := by
      intro q
      rw [connOf_congr s2 ({ s with conn := (p, n) :: s.conn.filter (fun e => e.1 != p) })
        (by rw [hs2conn]) q]
      exact connOf_set s p n q
    have hco3 : ∀ q, connOf s3 q = if q = p then some n else connOf s q := by
      intro q
      rw [connOf_congr s3 s2 (by rw [← hs3]; exact connectPinAfter_conn Dd s2 p) q]
      exact hco2 q
    have hnets3 : s3.nets = s.nets := by
      rw [← hs3, connectPinAfter_nets, hs2nets]
    have hd3 := connectPinAfter_drvr Dd s2 p
    rw [hs3] at hd3
    have hd1 := disconnectPinBefore_drvr Dd s p
    rw [hs1] at hd1
    rcases hd3 with ⟨hdp, n2, hcn2, hmap3⟩ | ⟨hdp, hmap3⟩
    · -- the connect hook inserts p into the entry of net n
      have hn2 : n2 = n := by
        have hx := hco2 p
        rw [if_pos rfl, hcn2] at hx
        injection hx
      rw [hn2] at hmap3
      rw [hs2drvr] at hmap3
      rcases hd1 with ⟨hdp0, m, hcm, hmap1⟩ | ⟨hdp0, hmap1⟩
      · -- the disconnect hook erased p from the entry of its old net m
        rw [hmap1, List.map_map] at hmap3
        intro e3 he3
        rw [hmap3] at he3
        obtain ⟨e, hel, hee⟩ := List.mem_map.mp he3
        obtain ⟨h1, h2, h3⟩ := hinv e hel
        simp only [Function.comp_apply] at hee
        have hnotp : ∀ q ∈ e.2, q ≠ p → connOf s3 q = some e.1 ∧ isDriverPin Dd q = true := by
          intro q hq hqp
          obtain ⟨hc, hdv⟩ := h2 q hq
          exact ⟨by rw [hco3 q, if_neg hqp, hc], hdv⟩
        by_cases hbm : (e.1 == m) = true
        · rw [if_pos hbm] at hee
          by_cases hbn : ((e.1, e.2.filter (fun q => q != p)).1 == n) = true
          · rw [if_pos hbn] at hee
            have hen : e.1 = n := by simpa using hbn
            rw [← hee]
            refine ⟨by rw [hnets3]; exact h1, ?_, ?_⟩
            · intro q hq
              simp only at hq
              rcases List.mem_cons.mp hq with rfl | hq2
              · refine ⟨?_, hdp⟩
                rw [hco3 q, if_pos rfl]
                simp [hen]
              · have hqf := List.of_mem_filter hq2
                have hql := List.mem_of_mem_filter hq2
                exact hnotp q hql (by simpa using hqf)
            · intro pr hpr hdrv hcn
              simp only at hcn ⊢
              by_cases hprp : pr.1 = p
              · rw [hprp]
                exact List.mem_cons_self _ _
              · rw [hco3 pr.1, if_neg hprp] at hcn
                have hin := h3 pr hpr hdrv hcn
                exact List.mem_cons.mpr (Or.inr (List.mem_filter.mpr ⟨hin, by simpa using hprp⟩))
          · rw [if_neg hbn] at hee
            have hen : e.1 ≠ n := by simpa using hbn
            rw [← hee]
            refine ⟨by rw [hnets3]; exact h1, ?_, ?_⟩
            · intro q hq
              simp only at hq
              have hqf := List.of_mem_filter hq
              have hql := List.mem_of_mem_filter hq
              exact hnotp q hql (by simpa using hqf)
            · intro pr hpr hdrv hcn
              simp only at hcn ⊢
              by_cases hprp : pr.1 = p
              · exfalso
                rw [hco3 pr.1, hprp, if_pos rfl] at hcn
                injection hcn with hx
                exact hen hx.symm
              · rw [hco3 pr.1, if_neg hprp] at hcn
                have hin := h3 pr hpr hdrv hcn
                exact List.mem_filter.mpr ⟨hin, by simpa using hprp⟩
        · rw [if_neg hbm] at hee
          have hem : e.1 ≠ m := by simpa using hbm
          have hpe2 : ∀ q ∈ e.2, q ≠ p := by
            intro q hq hqp
            obtain ⟨hc, _⟩ := h2 q hq
            rw [hqp, hcm] at hc
            injection hc with hx
            exact hem hx.symm
          by_cases hbn : (e.1 == n) = true
          · rw [if_pos hbn] at hee
            have hen : e.1 = n := by simpa using hbn
            rw [← hee]
            refine ⟨by rw [hnets3]; exact h1, ?_, ?_⟩
            · intro q hq
              simp only at hq
              rcases List.mem_cons.mp hq with rfl | hq2
              · refine ⟨?_, hdp⟩
                rw [hco3 q, if_pos rfl]
                simp [hen]
              · exact hnotp q hq2 (hpe2 q hq2)
            · intro pr hpr hdrv hcn
              simp only at hcn ⊢
              by_cases hprp : pr.1 = p
              · rw [hprp]
                exact List.mem_cons_self _ _
              · rw [hco3 pr.1, if_neg hprp] at hcn
                exact List.mem_cons.mpr (Or.inr (h3 pr hpr hdrv hcn))
          · rw [if_neg hbn] at hee
            have hen : e.1 ≠ n := by simpa using hbn
            rw [← hee]
            refine ⟨by rw [hnets3]; exact h1, ?_, ?_⟩
            · intro q hq
              exact hnotp q hq (hpe2 q hq)
            · intro pr hpr hdrv hcn
              by_cases hprp : pr.1 = p
              · exfalso
                rw [hco3 pr.1, hprp, if_pos rfl] at hcn
                injection hcn with hx
                exact hen hx.symm
              · rw [hco3 pr.1, if_neg hprp] at hcn
                exact h3 pr hpr hdrv hcn
        -- leftover goal for clause 1 when the state was unchanged
      · -- the disconnect hook did nothing: p was not a connected driver
        have hcpn : connOf s p = none := by
          rcases hdp0 with hx | hx
          · rw [hx] at hdp
            cases hdp
          · exact hx
        rw [hmap1] at hmap3
        intro e3 he3
        rw [hmap3] at he3
        obtain ⟨e, hel, hee⟩ := List.mem_map.mp he3
        obtain ⟨h1, h2, h3⟩ := hinv e hel
        have hpe2 : ∀ q ∈ e.2, q ≠ p := by
          intro q hq hqp
          obtain ⟨hc, _⟩ := h2 q hq
          rw [hqp, hcpn] at hc
          cases hc
        have hnotp : ∀ q ∈ e.2, q ≠ p → connOf s3 q = some e.1 ∧ isDriverPin Dd q = true := by
          intro q hq hqp
          obtain ⟨hc, hdv⟩ := h2 q hq
          exact ⟨by rw [hco3 q, if_neg hqp, hc], hdv⟩
        by_cases hbn : (e.1 == n) = true
        · rw [if_pos hbn] at hee
          have hen : e.1 = n := by simpa using hbn
          rw [← hee]
          refine ⟨by rw [hnets3]; exact h1, ?_, ?_⟩
          · intro q hq
            simp only at hq
            rcases List.mem_cons.mp hq with rfl | hq2
            · refine ⟨?_, hdp⟩
              rw [hco3 q, if_pos rfl]
              simp [hen]
            · exact hnotp q hq2 (hpe2 q hq2)
          · intro pr hpr hdrv hcn
            simp only at hcn ⊢
            by_cases hprp : pr.1 = p
            · rw [hprp]
              exact List.mem_cons_self _ _
            · rw [hco3 pr.1, if_neg hprp] at hcn
              exact List.mem_cons.mpr (Or.inr (h3 pr hpr hdrv hcn))
        · rw [if_neg hbn] at hee
          have hen : e.1 ≠ n := by simpa using hbn
          rw [← hee]
          refine ⟨by rw [hnets3]; exact h1, ?_, ?_⟩
          · intro q hq
            exact hnotp q hq (hpe2 q hq)
          · intro pr hpr hdrv hcn
            by_cases hprp : pr.1 = p
            · exfalso
              rw [hco3 pr.1, hprp, if_pos rfl] at hcn
              injection hcn with hx
              exact hen hx.symm
            · rw [hco3 pr.1, if_neg hprp] at hcn
              exact h3 pr hpr hdrv hcn
    · -- the connect hook did nothing: p is not a driver
      have hdpf : isDriverPin Dd p = false := by
        rcases hdp with hx | hx
        · exact hx
        · exfalso
          have hy := hco2 p
          rw [if_pos rfl, hx] at hy
          cases hy
      rw [hs2drvr] at hmap3
      have hmap1 : s1.drvr = s.drvr := by
        rcases hd1 with ⟨hdp0, m, hcm, _⟩ | ⟨_, hmap1⟩
        · rw [hdpf] at hdp0
          cases hdp0
        · exact hmap1
      rw [hmap1] at hmap3
      intro e3 he3
      rw [hmap3] at he3
      obtain ⟨h1, h2, h3⟩ := hinv e3 he3
      have hpe2 : ∀ q ∈ e3.2, q ≠ p := by
        intro q hq hqp
        obtain ⟨_, hdv⟩ := h2 q hq
        rw [hqp, hdpf] at hdv
        cases hdv
      refine ⟨by rw [hnets3]; exact h1, ?_, ?_⟩
      · intro q hq
        obtain ⟨hc, hdv⟩ := h2 q hq
        exact ⟨by rw [hco3 q, if_neg (hpe2 q hq), hc], hdv⟩
      · intro pr hpr hdrv hcn
        by_cases hprp : pr.1 = p
        · exfalso
          have hpin := isDriverPin_of_mem Dd hnd pr hpr
          rw [hprp, hdpf] at hpin
          rw [← hpin] at hdrv
          cases hdrv
        · rw [hco3 pr.1, if_neg hprp] at hcn
          exact h3 pr hpr hdrv hcn
  · have hstate : applyDrvOp Dd s (DrvOp.connect p n) = s := by
      simp only [applyDrvOp]
      rw [if_neg hg]
    rw [hstate]
    exact hinv

/-- Every layer operation keeps the connection map well formed. -/
theorem drv_step_wf (Dd : DrvDesign) (s : DrvState) (hwf : DrvWf s) (op : DrvOp) :
    DrvWf (applyDrvOp Dd s op) := by
  cases op with
  | connect p n =>
    by_cases hg : (hasPin Dd p && s.nets.contains n) = true
    · have hconn : (applyDrvOp Dd s (DrvOp.connect p n)).conn
          = (p, n) :: s.conn.filter (fun e => e.1 != p) := by
        simp only [applyDrvOp]
        rw [if_pos hg, connectPinAfter_conn]
        show (p, n) :: (disconnectPinBefore Dd s p).conn.filter (fun e => e.1 != p) = _
        rw [disconnectPinBefore_conn]
      unfold DrvWf
      rw [hconn, List.map_cons, List.nodup_cons]
      constructor
      · intro hmem
        obtain ⟨e, hef, hee⟩ := List.mem_map.mp hmem
        have hf := List.of_mem_filter hef
        rw [hee] at hf
        simp at hf
      · exact List.Nodup.sublist (List.Sublist.map _ (List.filter_sublist _)) hwf
    · have hstate : applyDrvOp Dd s (DrvOp.connect p n) = s := by
        simp only [applyDrvOp]
        rw [if_neg hg]
      rw [hstate]
      exact hwf
  | disconnect p =>
    have hconn : (applyDrvOp Dd s (DrvOp.disconnect p)).conn
        = s.conn.filter (fun e => e.1 != p) := by
      simp only [applyDrvOp]
      rw [disconnectPinBefore_conn]
    unfold DrvWf
    rw [hconn]
    exact List.Nodup.sublist (List.Sublist.map _ (List.filter_sublist _)) hwf
  | deleteNet n =>
    have hconn : (applyDrvOp Dd s (DrvOp.deleteNet n)).conn
        = s.conn.filter (fun e => e.2 != n) := by
      simp [applyDrvOp, deleteNetBefore]
    unfold DrvWf
    rw [hconn]
    exact List.Nodup.sublist (List.Sublist.map _ (List.filter_sublist _)) hwf
  | makeNet n =>
    have hconn : (applyDrvOp Dd s (DrvOp.makeNet n)).conn = s.conn := by
      by_cases hmem : n ∈ s.nets <;> simp [applyDrvOp, hmem]
    unfold DrvWf
    rw [hconn]
    exact hwf

/-- Any operation sequence preserves well-formedness and the driver-index
invariant. -/
theorem drv_ops_inv (Dd : DrvDesign) (hnd : (Dd.pins.map (fun e => e.1)).Nodup) :
    ∀ (ops : List DrvOp) (s : DrvState), DrvWf s → DrvInv Dd s →
      DrvWf (applyDrvOps Dd s ops) ∧ DrvInv Dd (applyDrvOps Dd s ops) := by
  intro ops
  induction ops with
  | nil =>
    intro s hwf hinv
    exact ⟨hwf, hinv⟩
  | cons op rest ih =>
    intro s hwf hinv
    have hstep_wf := drv_step_wf Dd s hwf op
    have hstep_inv : DrvInv Dd (applyDrvOp Dd s op) := by
      cases op with
      | connect p n => exact drv_inv_connect Dd hnd s hinv p n
      | disconnect p => exact drv_inv_disconnect Dd s hwf hinv p
      | deleteNet n => exact drv_inv_deleteNet Dd s hwf hinv n
      | makeNet n => exact drv_inv_makeNet Dd s hinv n
    exact ih (applyDrvOp Dd s op) hstep_wf hstep_inv

/-- C6: starting from any well-formed state whose driver index is exact,
any sequence of connect/disconnect/deleteNet/makeNet operations routed
through the incremental hooks leaves every index entry on a live net
holding exactly the currently-connected output-direction pins of that net;
deleting a net removes its index entry, and a subsequently created net of
the same name still has no entry, so it starts with an empty driver set. -/
theorem c6_driver_index (Dd : DrvDesign) (hnd : (Dd.pins.map (fun e => e.1)).Nodup)
    (s : DrvState) (hwf : DrvWf s) (hinv : DrvInv Dd s) (ops : List DrvOp) :
    (DrvWf (applyDrvOps Dd s ops) ∧ DrvInv Dd (applyDrvOps Dd s ops)) ∧
    (∀ n : Nat, drvrEntry (applyDrvOp Dd s (DrvOp.deleteNet n)) n = none ∧
      drvrEntry (applyDrvOp Dd (applyDrvOp Dd s (DrvOp.deleteNet n)) (DrvOp.makeNet n)) n
        = none) := by
  refine ⟨drv_ops_inv Dd hnd ops s hwf hinv, ?_⟩
  intro n
  have hdrvr_del : (applyDrvOp Dd s (DrvOp.deleteNet n)).drvr
      = s.drvr.filter (fun e => e.1 != n) := by
    simp [applyDrvOp, deleteNetBefore]
  have h1 : drvrEntry (applyDrvOp Dd s (DrvOp.deleteNet n)) n = none := by
    unfold drvrEntry
    rw [hdrvr_del, List.find?_eq_none.mpr]
    · rfl
    · intro x hx
      have hxf := List.of_mem_filter hx
      simp only [bne_iff_ne, ne_eq] at hxf
      simp [hxf]
  refine ⟨h1, ?_⟩
  have hd : (applyDrvOp Dd (applyDrvOp Dd s (DrvOp.deleteNet n)) (DrvOp.makeNet n)).drvr
      = (applyDrvOp Dd s (DrvOp.deleteNet n)).drvr := by
    by_cases hmem : n ∈ (applyDrvOp Dd s (DrvOp.deleteNet n)).nets <;>
      simp [applyDrvOp, hmem]
  unfold drvrEntry at h1 ⊢
  rw [hd]
  exact h1

/-- C6 witness: the preservation theorem applied to the concrete two-pin
design, a state with one live net carrying an exact (empty) index entry,
and a sequence exercising every operation. -/
theorem c6_driver_index_witness :
    (exDrvDesign.pins.map (fun e => e.1)).Nodup ∧
    DrvWf exDrvState ∧ DrvInv exDrvDesign exDrvState ∧
    ((DrvWf (applyDrvOps exDrvDesign exDrvState exDrvOps) ∧
      DrvInv exDrvDesign (applyDrvOps exDrvDesign exDrvState exDrvOps)) ∧
     (∀ n : Nat,
       drvrEntry (applyDrvOp exDrvDesign exDrvState (DrvOp.deleteNet n)) n = none ∧
       drvrEntry (applyDrvOp exDrvDesign
         (applyDrvOp exDrvDesign exDrvState (DrvOp.deleteNet n)) (DrvOp.makeNet n)) n
           = none)) :=
  ⟨by decide, by decide, by decide,
    c6_driver_index exDrvDesign (by decide) exDrvState (by decide) (by decide) exDrvOps⟩

end DbNwk
